import Mathlib

/-!
Shallow embedding of the transaction-validation and block-assembly core of
the doslink node (Go sources under protocol/validation, consensus, mining,
protocol/vm), together with proofs checking the specification's claims.

Machine integers: Go `int64` values are modelled as `Int` together with the
explicit bounds `int64Min`/`int64Max`; Go `uint64` values are modelled as
`Nat` with the bound `2^64` stated where it matters.  The repository's
`basis/math/checked` helpers (checked int64 arithmetic returning `(value,
ok)`) are modelled by `Option Int` functions that succeed exactly when the
exact integer result fits in int64 (and, for division, when the divisor is
nonzero and the result does not overflow).
-/

namespace Doslink

/-! ### int64 arithmetic -/

def int64Min : Int := -(2 ^ 63)

def int64Max : Int := 2 ^ 63 - 1

def inInt64 (x : Int) : Prop := int64Min ≤ x ∧ x ≤ int64Max

instance (x : Int) : Decidable (inInt64 x) := by
  unfold inInt64; infer_instance

/-- Go's wrapping (two's-complement) int64 addition result for an exact
integer value. -/
def wrapInt64 (x : Int) : Int := (x + 2 ^ 63) % 2 ^ 64 - 2 ^ 63

/-- `checked.AddInt64`. -/
def addInt64 (a b : Int) : Option Int :=
  if inInt64 (a + b) then some (a + b) else none

/-- `checked.SubInt64`. -/
def subInt64 (a b : Int) : Option Int :=
  if inInt64 (a - b) then some (a - b) else none

/-- `checked.MulInt64`. -/
def mulInt64 (a b : Int) : Option Int :=
  if inInt64 (a * b) then some (a * b) else none

/-- `checked.DivInt64`: Go `/` truncates toward zero; it fails on a zero
divisor and on `int64Min / -1`. -/
def divInt64 (a b : Int) : Option Int :=
  if b = 0 then none
  else if a = int64Min ∧ b = -1 then none
  else some (Int.tdiv a b)

/-! ### Consensus constants (consensus package) -/

def MaxBlockGas : Nat := 10000000

def VMGasRate : Int := 200

def StorageGasRate : Int := 1

def MaxGasAmount : Int := 5000000

def DefaultGasCredit : Int := 30000

def subsidyReductionInterval : Nat := 2 ^ 64 - 1

def baseSubsidy : Nat := 750000000

def InitialBlockSubsidy : Nat := 140700000750000000

def TargetSecondsPerBlock : Nat := 13

def CoinbaseArbitrarySizeLimit : Nat := 128

/-- `NativeAssetID` is the 32-byte all-ones asset id; asset ids are
modelled as the natural number given by their bytes, so the native id is
`2^256 - 1`. -/
def NativeAssetID : Nat := 2 ^ 256 - 1

/-- `NativeAssetID.Bytes()`: 32 bytes of 0xff. -/
def nativeAssetBytes : List Nat := List.replicate 32 255

/-- `consensus.BlockSubsidy` on the uint64 height domain. -/
def BlockSubsidy (height : Nat) : Nat :=
  if height = 0 then InitialBlockSubsidy
  else baseSubsidy >>> (height / subsidyReductionInterval)

/-! ### Validation errors

The Go code wraps errors with context strings but callers compare against
the root error values; each root error is one constructor here.  `vmError`
stands for any error produced inside `vm.Verify` (an uninterpreted
collaborator), and `fuelExhausted` is the artefact of bounding the
entry-graph recursion by fuel (the Go recursion is bounded by the acyclic
content-addressed graph instead). -/

inductive VErr where
  | txVersion
  | wrongTransactionSize
  | badTimeRange
  | notStandardTx
  | wrongCoinbaseTransaction
  | wrongCoinbaseAsset
  | coinbaseArbitraryOversize
  | mismatchedAssetID
  | mismatchedPosition
  | mismatchedReference
  | mismatchedValue
  | missingField
  | noSource
  | overflow
  | badPosition
  | unbalanced
  | overGasCredit
  | gasCalculate
  | missingEntry
  | entryType
  | unexpectedEntryType
  | shortProgram
  | overBlockLimit
  | insufficientBalance
  | dataStackUnderflow
  | unknownVmType
  | unknownVersion
  | vmError (code : Nat)
  | fuelExhausted
deriving DecidableEq, Repr

/-! ### GasState (protocol/validation) -/

structure GasState where
  assetValue : Nat
  gasLeft : Int
  gasUsed : Int
  gasValid : Bool
  storageGas : Int
deriving DecidableEq, Repr

/-- The `GasState{GasValid: false}` literal used by `ValidateTx`: all other
fields are Go zero values. -/
def GasState.init : GasState :=
  { assetValue := 0, gasLeft := 0, gasUsed := 0, gasValid := false, storageGas := 0 }

/-- `GasState.setGas`.  State mutations made before a failing checked
operation are kept, mirroring the Go pointer receiver (on a failed checked
division/multiplication the Go helper's zero return value is also written
to the field being assigned; no caller inspects those fields after an
error, so the error state is returned as-is here). -/
def GasState.setGas (g : GasState) (assetValue txSize : Int) : GasState × Option VErr :=
  if assetValue < 0 then (g, some .gasCalculate)
  else
    let g1 := { g with assetValue := assetValue.toNat }
    match divInt64 assetValue VMGasRate with
    | none => (g1, some .gasCalculate)
    | some q =>
      let g2 := { g1 with gasLeft := if MaxGasAmount < q then MaxGasAmount else q }
      match mulInt64 txSize StorageGasRate with
      | none => (g2, some .gasCalculate)
      | some sg => ({ g2 with storageGas := sg }, none)

/-- `GasState.setGasValid`. -/
def GasState.setGasValid (g : GasState) : GasState × Option VErr :=
  match subInt64 g.gasLeft g.storageGas with
  | none => (g, some .gasCalculate)
  | some v =>
    if v < 0 then ({ g with gasLeft := v }, some .gasCalculate)
    else
      match addInt64 g.gasUsed g.storageGas with
      | none => ({ g with gasLeft := v }, some .gasCalculate)
      | some u => ({ g with gasLeft := v, gasUsed := u, gasValid := true }, none)

/-- `GasState.updateUsage`.  The Go line `g.GasUsed += gasUsed` is an
unchecked int64 addition, hence the `wrapInt64`. -/
def GasState.updateUsage (g : GasState) (gasLeft : Int) : GasState × Option VErr :=
  if gasLeft < 0 then (g, some .gasCalculate)
  else
    match subInt64 g.gasLeft gasLeft with
    | none => (g, some .gasCalculate)
    | some d =>
      let g1 := { g with gasUsed := wrapInt64 (g.gasUsed + d), gasLeft := gasLeft }
      if ¬g1.gasValid ∧ (DefaultGasCredit < g1.gasUsed ∨ g1.gasLeft < g1.storageGas) then
        (g1, some .overGasCredit)
      else (g1, none)

end Doslink

namespace Doslink

/-! ### Byte-string programs and the program classifier

Programs are byte strings (`List Nat`, each element a byte).  The
instruction parser `vm.ParseProgram` is not among the provided sources.
-/

structure Inst where
  op : Nat
  data : List Nat
deriving DecidableEq, Repr

def OP_0 : Nat := 0x00
def OP_DATA_1 : Nat := 0x01
def OP_DATA_20 : Nat := 0x14
def OP_PUSHDATA1 : Nat := 0x4c
def OP_PUSHDATA2 : Nat := 0x4d
def OP_PUSHDATA4 : Nat := 0x4e
def OP_1 : Nat := 0x51
def OP_TRUE : Nat := 0x51
def OP_16 : Nat := 0x60
def OP_FAIL : Nat := 0x6a

/-- Modelled from the spec: the numeric values of the hybrid opcodes
`OP_CREATE`, `OP_CALL`, `OP_CONTRACT`, `OP_DEPOSIT`, `OP_WITHDRAW` and of
the vm-type constant `VM_EVM` are not in the provided sources; they are
fixed here as distinct single-byte non-push opcodes (`VM_EVM` as a small
push so that `AddInt64(vmType)`-built programs classify as P2Contract).
Only their distinctness and non-push-ness matter to the classifier. -/
def OP_CREATE : Nat := 0xc4
def OP_CALL : Nat := 0xc5
def OP_CONTRACT : Nat := 0xc6
def OP_DEPOSIT : Nat := 0xd0
def OP_WITHDRAW : Nat := 0xd1
def VM_EVM : Nat := 0x51

def PayToWitnessScriptHashDataSize : Nat := 20

/-- Little-endian number from bytes (PUSHDATA length prefixes). -/
def leNat (bs : List Nat) : Nat :=
  bs.foldr (fun b acc => acc * 256 + b) 0

/-- Modelled from the spec: `vm.ParseOp` (not in the provided sources).
Spec 4.1: "Parses a program into (opcode, immediate) instruction list
(all single-byte ops plus PUSHDATA* and DATA_N)."  `OP_1`..`OP_16` carry
their small-int value as data; a truncated immediate is a parse error. -/
def parseOp : List Nat → Option (Inst × List Nat)
  | [] => none
  | b :: rest =>
    if 1 ≤ b ∧ b ≤ 0x4b then
      if rest.length < b then none
      else some (⟨b, rest.take b⟩, rest.drop b)
    else if b = OP_PUSHDATA1 then
      match rest with
      | [] => none
      | n :: rest1 =>
        if rest1.length < n then none
        else some (⟨b, rest1.take n⟩, rest1.drop n)
    else if b = OP_PUSHDATA2 then
      if rest.length < 2 then none
      else
        let n := leNat (rest.take 2)
        let rest1 := rest.drop 2
        if rest1.length < n then none
        else some (⟨b, rest1.take n⟩, rest1.drop n)
    else if b = OP_PUSHDATA4 then
      if rest.length < 4 then none
      else
        let n := leNat (rest.take 4)
        let rest1 := rest.drop 4
        if rest1.length < n then none
        else some (⟨b, rest1.take n⟩, rest1.drop n)
    else if OP_1 ≤ b ∧ b ≤ OP_16 then
      some (⟨b, [b - 0x50]⟩, rest)
    else
      some (⟨b, []⟩, rest)

def parseProgramAux : Nat → List Nat → Option (List Inst)
  | _, [] => some []
  | 0, _ :: _ => none
  | fuel + 1, code =>
    match parseOp code with
    | none => none
    | some (i, rest) =>
      match parseProgramAux fuel rest with
      | none => none
      | some is => some (i :: is)

/-- Modelled from the spec: `vm.ParseProgram` (not in the provided
sources); total on byte strings, `none` on a truncated immediate. -/
def ParseProgram (code : List Nat) : Option (List Inst) :=
  parseProgramAux code.length code

/-- `segwit.IsStraightforward`. -/
def IsStraightforward (prog : List Nat) : Bool :=
  match ParseProgram prog with
  | some [i] => i.op == OP_TRUE || i.op == OP_FAIL
  | _ => false

/-- `segwit.IsP2WSHScript`. -/
def IsP2WSHScript (prog : List Nat) : Bool :=
  match ParseProgram prog with
  | some [i0, i1] =>
    decide (i0.op ≤ OP_16) && (i1.op == OP_DATA_20)
      && (i1.data.length == PayToWitnessScriptHashDataSize)
  | _ => false

/-- `segwit.IsP2ContractProgram`. -/
def IsP2ContractProgram (prog : List Nat) : Bool :=
  match ParseProgram prog with
  | some [v, t, a] =>
    decide (v.op ≤ OP_16) && (t.op == VM_EVM)
      && (a.op == OP_DATA_20) && (a.data.length == 20)
  | _ => false

/-- `segwit.IsP2WScript`. -/
def IsP2WScript (prog : List Nat) : Bool :=
  IsP2WSHScript prog || IsStraightforward prog || IsP2ContractProgram prog

/-- `vm.IsOpDeposit`. -/
def IsOpDeposit (prog : List Nat) : Bool :=
  match ParseProgram prog with
  | some [v, t, a, l] =>
    decide (v.op ≤ OP_16) && decide (t.op ≤ OP_16)
      && (a.op == OP_DATA_20) && (a.data.length == 20) && (l.op == OP_DEPOSIT)
  | _ => false

/-- `vm.IsOpWithdraw`. -/
def IsOpWithdraw (prog : List Nat) : Bool :=
  match ParseProgram prog with
  | some [v, t, a, l] =>
    decide (v.op ≤ OP_16) && decide (t.op ≤ OP_16)
      && (a.op == OP_DATA_20) && (a.data.length == 20) && (l.op == OP_WITHDRAW)
  | _ => false

/-- `vm.IsOpCall`. -/
def IsOpCall (prog : List Nat) : Bool :=
  match ParseProgram prog with
  | some [v, i, l] =>
    decide (v.op ≤ OP_16) && decide (OP_DATA_1 ≤ i.op) && decide (i.op ≤ OP_PUSHDATA4)
      && (l.op == OP_CALL)
  | _ => false

/-- Modelled from the spec: `vm.IsOpCreate` (not in the provided sources);
same shape as `IsOpCall` with `OP_CREATE` as the trailing opcode. -/
def IsOpCreate (prog : List Nat) : Bool :=
  match ParseProgram prog with
  | some [v, i, l] =>
    decide (v.op ≤ OP_16) && decide (OP_DATA_1 ≤ i.op) && decide (i.op ≤ OP_PUSHDATA4)
      && (l.op == OP_CREATE)
  | _ => false

/-- Modelled from the spec: `vm.IsOpContract` (not in the provided
sources); same shape as `IsOpCall` with `OP_CONTRACT`. -/
def IsOpContract (prog : List Nat) : Bool :=
  match ParseProgram prog with
  | some [v, i, l] =>
    decide (v.op ≤ OP_16) && decide (OP_DATA_1 ≤ i.op) && decide (i.op ≤ OP_PUSHDATA4)
      && (l.op == OP_CONTRACT)
  | _ => false

/-- `vmutil.IsUnspendable`: leads with `OP_FAIL`. -/
def IsUnspendable (prog : List Nat) : Bool :=
  match prog with
  | b :: _ => b == OP_FAIL
  | [] => false

/-- `segwit.GetHashFromStandardProg`: the data of the last parsed
instruction (the Go code would panic on an empty instruction list; no
caller reaches that case, it is folded into the error here). -/
def GetHashFromStandardProg (prog : List Nat) : Except VErr (List Nat) :=
  match ParseProgram prog with
  | none => .error .shortProgram
  | some insts =>
    match insts.getLast? with
    | some i => .ok i.data
    | none => .error .shortProgram

/-- Big-endian value of a byte string (`big.Int.SetBytes`). -/
def bytesToNat (bs : List Nat) : Nat :=
  bs.foldl (fun acc b => acc * 256 + b) 0

/-- `common.BytesToAddress`: keep the last 20 bytes (left-padded);
addresses are identified with their 160-bit value. -/
def bytesToAddress (bs : List Nat) : Nat :=
  bytesToNat bs % 256 ^ 20

end Doslink

namespace Doslink

/-! ### Transaction entries (protocol/bc)

Hashes are opaque identities, modelled as `Nat`.  Entries are looked up by
hash in the transaction's entry map, modelled as an association list.  The
nil-pointer guards of the Go code (`vs.Ref == nil` etc.) have no
counterpart because the embedded fields are total. -/

abbrev Hash := Nat

structure AssetAmount where
  assetId : Nat
  amount : Nat
deriving DecidableEq, Repr

structure Program where
  vmVersion : Nat
  code : List Nat
deriving DecidableEq, Repr

structure ValueSource where
  ref : Hash
  value : AssetAmount
  position : Nat
deriving DecidableEq, Repr

structure ValueDestination where
  ref : Hash
  value : AssetAmount
  position : Nat
deriving DecidableEq, Repr

/-- The entry variants, with exactly the fields the validator reads.  The
issuance asset definition is opaque (`witnessAssetDefinition : Nat`) and
its `ComputeAssetID` is a context parameter. -/
inductive Entry where
  | txHeader (version : Nat) (resultIds : List Hash)
  | mux (sources : List ValueSource) (program : Program)
      (witnessDestinations : List ValueDestination)
  | output (source : ValueSource) (controlProgram : Program) (ordinal : Nat)
  | retirement (source : ValueSource) (ordinal : Nat)
  | issuance (value : AssetAmount) (witnessAssetDefinition : Nat)
      (issuanceProgram : Program) (witnessArguments : List (List Nat))
      (witnessDestination : ValueDestination)
  | spend (spentOutputId : Option Hash) (witnessArguments : List (List Nat))
      (witnessDestination : ValueDestination)
  | coinbase (arbitrary : List Nat) (witnessDestination : ValueDestination)
  | creation (nonce : Nat) (fromProg : Program) (input : Program)
      (witnessArguments : List (List Nat)) (witnessDestination : ValueDestination)
  | call (nonce : Nat) (fromProg : Program) (toProg : Program) (input : Program)
      (witnessArguments : List (List Nat)) (witnessDestination : ValueDestination)
  | contract (nonce : Nat) (fromProg : Program) (toCode : List Nat) (input : Program)
      (witnessArguments : List (List Nat)) (witnessDestination : ValueDestination)
  | deposit (source : ValueSource) (controlProgram : Program)
  | withdrawal (value : AssetAmount) (controlProgram : Program)
      (withdrawProgram : Program) (witnessArguments : List (List Nat))
      (witnessDestination : ValueDestination)
deriving DecidableEq, Repr

/-- `bc.Tx`: the header fields plus the entry map and the derived id
lists (`MapTx` populates `GasInputIDs`). -/
structure Tx where
  id : Hash
  version : Nat
  serializedSize : Nat
  timeRange : Nat
  resultIds : List Hash
  muxId : Hash
  entries : List (Hash × Entry)
  gasInputIDs : List Hash
deriving DecidableEq, Repr

/-- The block fields the transaction validator reads.  Transactions are
identified by their id (the Go code compares `block.Transactions[0]`
against `vs.tx` by pointer; within one validation both name the same
transaction object, so id equality is the faithful translation). -/
structure Block where
  version : Nat
  height : Nat
  transactions : List Hash
deriving DecidableEq, Repr

/-! ### Association lists (Go maps with deterministic first-insertion
iteration order) -/

def alookup {α : Type} : List (Nat × α) → Nat → Option α
  | [], _ => none
  | (k, v) :: rest, key => if k = key then some v else alookup rest key

def aupdate {α : Type} : List (Nat × α) → Nat → α → List (Nat × α)
  | [], k, v => [(k, v)]
  | (k0, v0) :: rest, k, v =>
    if k0 = k then (k0, v) :: rest else (k0, v0) :: aupdate rest k v

/-- `StateDB.GetBalance` (absent addresses read zero). -/
def getBalance (bal : List (Nat × Int)) (addr : Nat) : Int :=
  (alookup bal addr).getD 0

/-- `StateDB.AddBalance`. -/
def addBalance (bal : List (Nat × Int)) (addr : Nat) (amt : Int) : List (Nat × Int) :=
  aupdate bal addr (getBalance bal addr + amt)

/-- `StateDB.SubBalance`. -/
def subBalance (bal : List (Nat × Int)) (addr : Nat) (amt : Int) : List (Nat × Int) :=
  aupdate bal addr (getBalance bal addr - amt)

/-! ### Validation context and state -/

/-- The mutable state shared through one `ValidateTx` run: the gas status,
the per-entry memoization cache (entry id, keyed by content hash, maps to
`none` for success or the recorded error), and the account-state balances
touched by validation. -/
structure VSt where
  gas : GasState
  cache : List (Hash × Option VErr)
  balances : List (Nat × Int)
deriving DecidableEq, Repr

/-- Everything `checkValid` reads but never writes.  `vmVerify` is the
uninterpreted stack-VM collaborator `vm.Verify`: from the program, the
arguments, the enclosing entry id, the gas budget and the account state it
produces the updated account state, the remaining gas and an optional
error.  `entryIdOf` is the content-hash function `bc.EntryID`. -/
structure Ctx where
  tx : Tx
  block : Option Block
  entryIdOf : Entry → Hash
  vmVerify : Program → List (List Nat) → Hash → Int → List (Nat × Int) →
    List (Nat × Int) × Int × Option VErr
  computeAssetID : Nat → Nat
  supportBalance : Bool

/-- uint64 → int64 conversion (`int64(vs.tx.SerializedSize)`). -/
def uint64ToInt64 (n : Nat) : Int := wrapInt64 (Int.ofNat n)

/-- `big.Int.SetUint64(n).Bytes()`: minimal big-endian bytes. -/
def natToBytes (n : Nat) : List Nat := (Nat.digits 256 n).reverse

/-! ### Mux asset parity (the Mux case of `checkValid`)

The Go code accumulates the per-asset parity in a map and then iterates
it; map iteration order is unspecified in Go, the embedding fixes the
first-insertion order.  Theorems that depend on which of several
simultaneously-present failures is reported are stated so that they hold
for any order, or carry the order caveat in their statement. -/

def muxParitySources : List (Nat × Int) → List ValueSource → Except VErr (List (Nat × Int))
  | p, [] => .ok p
  | p, src :: rest =>
    if 2 ^ 63 - 1 < src.value.amount then .error .overflow
    else
      match addInt64 ((alookup p src.value.assetId).getD 0) (Int.ofNat src.value.amount) with
      | none => .error .overflow
      | some s => muxParitySources (aupdate p src.value.assetId s) rest

def muxParityDests : List (Nat × Int) → List ValueDestination → Except VErr (List (Nat × Int))
  | p, [] => .ok p
  | p, dest :: rest =>
    match alookup p dest.value.assetId with
    | none => .error .noSource
    | some sum =>
      if 2 ^ 63 - 1 < dest.value.amount then .error .overflow
      else
        match subInt64 sum (Int.ofNat dest.value.amount) with
        | none => .error .overflow
        | some d => muxParityDests (aupdate p dest.value.assetId d) rest

def muxApplyParity (g : GasState) (txSize : Int) : List (Nat × Int) → GasState × Option VErr
  | [] => (g, none)
  | (aid, v) :: rest =>
    if aid = NativeAssetID then
      match GasState.setGas g v txSize with
      | (g1, none) => muxApplyParity g1 txSize rest
      | (g1, some er) => (g1, some er)
    else if v ≠ 0 then (g, some .unbalanced)
    else muxApplyParity g txSize rest

/-! ### checkValidDest -/

/-- `checkValidDest`: selects the value source of the referenced entry
(position 0 for output/retirement/deposit, indexed for mux) and checks the
back-reference, position and value against the current entry. -/
def checkValidDest (ctx : Ctx) (entryID : Hash) (destPos : Nat) (st : VSt)
    (vd : ValueDestination) : VSt × Option VErr :=
  match alookup ctx.tx.entries vd.ref with
  | none => (st, some .missingEntry)
  | some e =>
    let srcRes : Except VErr ValueSource :=
      match e with
      | .output src _ _ => if vd.position ≠ 0 then .error .badPosition else .ok src
      | .retirement src _ => if vd.position ≠ 0 then .error .badPosition else .ok src
      | .deposit src _ => if vd.position ≠ 0 then .error .badPosition else .ok src
      | .mux srcs _ _ =>
        match srcs.get? vd.position with
        | none => .error .badPosition
        | some s => .ok s
      | _ => .error .entryType
    match srcRes with
    | .error er => (st, some er)
    | .ok src =>
      if src.ref ≠ entryID then (st, some .mismatchedReference)
      else if src.position ≠ destPos then (st, some .mismatchedPosition)
      else if src.value ≠ vd.value then (st, some .mismatchedValue)
      else (st, none)

end Doslink

namespace Doslink

/-! ### checkValid — the recursive entry walk

Recursion depth is bounded by fuel (the Go recursion is bounded by the
acyclic content-addressed graph; every recursive step here consumes one
unit and a run with insufficient fuel reports `fuelExhausted`, which never
occurs in the theorems' successful runs).  Entry lookups that would make
the Go code dereference a nil entry (a missing header result or mux id)
are reported as `missingEntry`. -/
/-- The request type of the single structurally-recursive validation
walker: one constructor per function of the Go mutual recursion
(`checkValid`, its body, the header/gas-input/mux loops and
`checkValidSrc`), so that the recursion is structural in the fuel and
the definitions compute. -/
inductive Req where
  | entry (entryID : Hash) (e : Entry)
  | body (entryID : Hash) (e : Entry)
  | headerResults (ids : List Hash)
  | gasInputs (ids : List Hash)
  | muxDests (entryID : Hash) (i : Nat) (dests : List ValueDestination)
  | muxSrcs (entryID : Hash) (i : Nat) (srcs : List ValueSource)
  | src (entryID : Hash) (sourcePos : Nat) (vsrc : ValueSource)

def checkValidGo (ctx : Ctx) : Nat → Req → VSt → VSt × Option VErr
  | 0, _, st => (st, some .fuelExhausted)
  | f + 1, .entry entryID e, st =>
    let eid := ctx.entryIdOf e
    match alookup st.cache eid with
    | some r => (st, r)
    | none =>
      let res := checkValidGo ctx f (.body entryID e) st
      ({ res.1 with cache := aupdate res.1.cache eid res.2 }, res.2)
  | f + 1, .body entryID e, st =>
    match e with
    | .txHeader version resultIds =>
      match checkValidGo ctx f (.headerResults resultIds) st with
      | (st1, some er) => (st1, some er)
      | (st1, none) =>
        if version = 1 ∧ resultIds = [] then
          match alookup ctx.tx.entries ctx.tx.muxId with
          | none => (st1, some .missingEntry)
          | some me => checkValidGo ctx f (.entry ctx.tx.muxId me) st1
        else (st1, none)
    | .mux sources _ dests =>
      match muxParitySources [] sources with
      | .error er => (st, some er)
      | .ok p =>
        match muxParityDests p dests with
        | .error er => (st, some er)
        | .ok p2 =>
          match muxApplyParity st.gas (uint64ToInt64 ctx.tx.serializedSize) p2 with
          | (g1, some er) => ({ st with gas := g1 }, some er)
          | (g1, none) =>
            match checkValidGo ctx f (.gasInputs ctx.tx.gasInputIDs) { st with gas := g1 } with
            | (st2, some er) => (st2, some er)
            | (st2, none) =>
              match checkValidGo ctx f (.muxDests entryID 0 dests) st2 with
              | (st3, some er) => (st3, some er)
              | (st3, none) =>
                let r4 :=
                  if ctx.tx.gasInputIDs ≠ [] then
                    let gr := st3.gas.setGasValid
                    ({ st3 with gas := gr.1 }, gr.2)
                  else (st3, none)
                match r4 with
                | (st4, some er) => (st4, some er)
                | (st4, none) => checkValidGo ctx f (.muxSrcs entryID 0 sources) st4
    | .output src cp _ =>
      match checkValidGo ctx f (.src entryID 0 src) st with
      | (st1, some er) => (st1, some er)
      | (st1, none) =>
        if ctx.supportBalance ∧ src.value.assetId = NativeAssetID then
          match GetHashFromStandardProg cp.code with
          | .error er => (st1, some er)
          | .ok h =>
            ({ st1 with
                balances := addBalance st1.balances (bytesToAddress h)
                  (Int.ofNat src.value.amount) }, none)
        else (st1, none)
    | .retirement src _ =>
      checkValidGo ctx f (.src entryID 0 src) st
    | .issuance value assetDef issProg args dest =>
      if ctx.computeAssetID assetDef ≠ value.assetId then (st, some .mismatchedAssetID)
      else
        match ctx.vmVerify issProg args entryID st.gas.gasLeft st.balances with
        | (bal1, _, some er) => ({ st with balances := bal1 }, some er)
        | (bal1, gl, none) =>
          let stv := { st with balances := bal1 }
          match stv.gas.updateUsage gl with
          | (g1, some er) => ({ stv with gas := g1 }, some er)
          | (g1, none) => checkValidDest ctx entryID 0 { stv with gas := g1 } dest
    | .creation nonce fromProg input args _ =>
      match ctx.vmVerify fromProg args entryID st.gas.gasLeft st.balances with
      | (bal1, _, some er) => ({ st with balances := bal1 }, some er)
      | (bal1, gl, none) =>
        let stv := { st with balances := bal1 }
        match stv.gas.updateUsage gl with
        | (g1, some er) => ({ stv with gas := g1 }, some er)
        | (g1, none) =>
          let st1 := { stv with gas := g1 }
          if IsOpCreate input.code then
            match GetHashFromStandardProg fromProg.code with
            | .error er => (st1, some er)
            | .ok fromHash =>
              match ctx.vmVerify input [fromHash, natToBytes nonce] entryID
                  st1.gas.gasLeft st1.balances with
              | (bal2, _, some er) => ({ st1 with balances := bal2 }, some er)
              | (bal2, gl2, none) =>
                let stw := { st1 with balances := bal2 }
                match stw.gas.updateUsage gl2 with
                | (g2, r) => ({ stw with gas := g2 }, r)
          else (st1, none)
    | .call nonce fromProg toProg input args _ =>
      match ctx.vmVerify fromProg args entryID st.gas.gasLeft st.balances with
      | (bal1, _, some er) => ({ st with balances := bal1 }, some er)
      | (bal1, gl, none) =>
        let stv := { st with balances := bal1 }
        match stv.gas.updateUsage gl with
        | (g1, some er) => ({ stv with gas := g1 }, some er)
        | (g1, none) =>
          let st1 := { stv with gas := g1 }
          if IsOpCall input.code then
            match GetHashFromStandardProg fromProg.code with
            | .error er => (st1, some er)
            | .ok fromHash =>
              match ctx.vmVerify input [fromHash, natToBytes nonce, toProg.code] entryID
                  st1.gas.gasLeft st1.balances with
              | (bal2, _, some er) => ({ st1 with balances := bal2 }, some er)
              | (bal2, gl2, none) =>
                let stw := { st1 with balances := bal2 }
                match stw.gas.updateUsage gl2 with
                | (g2, r) => ({ stw with gas := g2 }, r)
          else (st1, none)
    | .contract nonce fromProg toCode input args _ =>
      match ctx.vmVerify fromProg args entryID st.gas.gasLeft st.balances with
      | (bal1, _, some er) => ({ st with balances := bal1 }, some er)
      | (bal1, gl, none) =>
        let stv := { st with balances := bal1 }
        match stv.gas.updateUsage gl with
        | (g1, some er) => ({ stv with gas := g1 }, some er)
        | (g1, none) =>
          let st1 := { stv with gas := g1 }
          if IsOpContract input.code then
            match GetHashFromStandardProg fromProg.code with
            | .error er => (st1, some er)
            | .ok fromHash =>
              match ctx.vmVerify input [fromHash, natToBytes nonce, toCode] entryID
                  st1.gas.gasLeft st1.balances with
              | (bal2, _, some er) => ({ st1 with balances := bal2 }, some er)
              | (bal2, gl2, none) =>
                let stw := { st1 with balances := bal2 }
                match stw.gas.updateUsage gl2 with
                | (g2, r) => ({ stw with gas := g2 }, r)
          else (st1, none)
    | .deposit src cp =>
      match checkValidGo ctx f (.src entryID 0 src) st with
      | (st1, some er) => (st1, some er)
      | (st1, none) =>
        if IsOpDeposit cp.code then
          match ctx.vmVerify cp [] entryID st1.gas.gasLeft st1.balances with
          | (bal2, _, some er) => ({ st1 with balances := bal2 }, some er)
          | (bal2, gl2, none) =>
            let stw := { st1 with balances := bal2 }
            match stw.gas.updateUsage gl2 with
            | (g2, r) => ({ stw with gas := g2 }, r)
        else (st1, none)
    | .withdrawal _ cp wp args dest =>
      match ctx.vmVerify cp args entryID st.gas.gasLeft st.balances with
      | (bal1, _, some er) => ({ st with balances := bal1 }, some er)
      | (bal1, gl, none) =>
        let stv := { st with balances := bal1 }
        match stv.gas.updateUsage gl with
        | (g1, some er) => ({ stv with gas := g1 }, some er)
        | (g1, none) =>
          match checkValidDest ctx entryID 0 { stv with gas := g1 } dest with
          | (st2, some er) => (st2, some er)
          | (st2, none) =>
            if IsOpWithdraw wp.code then
              match ctx.vmVerify wp [] entryID st2.gas.gasLeft st2.balances with
              | (bal2, _, some er) => ({ st2 with balances := bal2 }, some er)
              | (bal2, gl2, none) =>
                let stw := { st2 with balances := bal2 }
                match stw.gas.updateUsage gl2 with
                | (g2, r) => ({ stw with gas := g2 }, r)
            else (st2, none)
    | .spend spentOutputId args dest =>
      match spentOutputId with
      | none => (st, some .missingField)
      | some soid =>
        match alookup ctx.tx.entries soid with
        | none => (st, some .missingEntry)
        | some (.output osrc ocp _) =>
          match ctx.vmVerify ocp args entryID st.gas.gasLeft st.balances with
          | (bal1, _, some er) => ({ st with balances := bal1 }, some er)
          | (bal1, gl, none) =>
            let stv := { st with balances := bal1 }
            match stv.gas.updateUsage gl with
            | (g1, some er) => ({ stv with gas := g1 }, some er)
            | (g1, none) =>
              let st1 := { stv with gas := g1 }
              if osrc.value ≠ dest.value then (st1, some .mismatchedValue)
              else
                match checkValidDest ctx entryID 0 st1 dest with
                | (st2, some er) => (st2, some er)
                | (st2, none) =>
                  if ctx.supportBalance ∧ osrc.value.assetId = NativeAssetID then
                    match GetHashFromStandardProg ocp.code with
                    | .error er => (st2, some er)
                    | .ok h =>
                      ({ st2 with
                          balances := subBalance st2.balances (bytesToAddress h)
                            (Int.ofNat osrc.value.amount) }, none)
                  else (st2, none)
        | some _ => (st, some .entryType)
    | .coinbase arb dest =>
      match ctx.block with
      | none => (st, some .wrongCoinbaseTransaction)
      | some b =>
        if b.transactions.head? ≠ some ctx.tx.id then (st, some .wrongCoinbaseTransaction)
        else if dest.value.assetId ≠ NativeAssetID then (st, some .wrongCoinbaseAsset)
        else if CoinbaseArbitrarySizeLimit < arb.length then
          (st, some .coinbaseArbitraryOversize)
        else
          match checkValidDest ctx entryID 0 st dest with
          | (st1, some er) => (st1, some er)
          | (st1, none) =>
            ({ st1 with gas := { st1.gas with gasValid := true } }, none)
  | f + 1, .headerResults ids, st =>
    match ids with
    | [] => (st, none)
    | rid :: rest =>
      match alookup ctx.tx.entries rid with
      | none => (st, some .missingEntry)
      | some e =>
        match checkValidGo ctx f (.entry rid e) st with
        | (st1, some er) => (st1, some er)
        | (st1, none) => checkValidGo ctx f (.headerResults rest) st1
  | f + 1, .gasInputs ids, st =>
    match ids with
    | [] => (st, none)
    | iid :: rest =>
      match alookup ctx.tx.entries iid with
      | none => (st, some .missingEntry)
      | some e =>
        match checkValidGo ctx f (.entry iid e) st with
        | (st1, some er) => (st1, some er)
        | (st1, none) => checkValidGo ctx f (.gasInputs rest) st1
  | f + 1, .muxDests entryID i dests, st =>
    match dests with
    | [] => (st, none)
    | d :: rest =>
      match checkValidDest ctx entryID i st d with
      | (st1, some er) => (st1, some er)
      | (st1, none) => checkValidGo ctx f (.muxDests entryID (i + 1) rest) st1
  | f + 1, .muxSrcs entryID i srcs, st =>
    match srcs with
    | [] => (st, none)
    | s :: rest =>
      match checkValidGo ctx f (.src entryID i s) st with
      | (st1, some er) => (st1, some er)
      | (st1, none) => checkValidGo ctx f (.muxSrcs entryID (i + 1) rest) st1
  | f + 1, .src entryID sourcePos vsrc, st =>
    match alookup ctx.tx.entries vsrc.ref with
    | none => (st, some .missingEntry)
    | some e =>
      match checkValidGo ctx f (.entry vsrc.ref e) st with
      | (st1, some er) => (st1, some er)
      | (st1, none) =>
        let destRes : Except VErr ValueDestination :=
          match e with
          | .coinbase _ d => if vsrc.position ≠ 0 then .error .badPosition else .ok d
          | .issuance _ _ _ _ d => if vsrc.position ≠ 0 then .error .badPosition else .ok d
          | .spend _ _ d => if vsrc.position ≠ 0 then .error .badPosition else .ok d
          | .creation _ _ _ _ d => if vsrc.position ≠ 0 then .error .badPosition else .ok d
          | .call _ _ _ _ _ d => if vsrc.position ≠ 0 then .error .badPosition else .ok d
          | .contract _ _ _ _ _ d => if vsrc.position ≠ 0 then .error .badPosition else .ok d
          | .withdrawal _ _ _ _ d => if vsrc.position ≠ 0 then .error .badPosition else .ok d
          | .mux _ _ dests =>
            match dests.get? vsrc.position with
            | none => .error .badPosition
            | some d => .ok d
          | _ => .error .entryType
        match destRes with
        | .error er => (st1, some er)
        | .ok d =>
          if d.ref ≠ entryID then (st1, some .mismatchedReference)
          else if d.position ≠ sourcePos then (st1, some .mismatchedPosition)
          else if d.value ≠ vsrc.value then (st1, some .mismatchedValue)
          else (st1, none)

/-- `checkValid` (the memoizing entry check). -/
def checkValid (ctx : Ctx) (fuel : Nat) (entryID : Hash) (st : VSt) (e : Entry) :
    VSt × Option VErr :=
  checkValidGo ctx fuel (.entry entryID e) st

/-- The per-variant work of `checkValid` (its switch statement). -/
def checkValidBody (ctx : Ctx) (fuel : Nat) (entryID : Hash) (st : VSt) (e : Entry) :
    VSt × Option VErr :=
  checkValidGo ctx fuel (.body entryID e) st

def checkHeaderResults (ctx : Ctx) (fuel : Nat) (st : VSt) (ids : List Hash) :
    VSt × Option VErr :=
  checkValidGo ctx fuel (.headerResults ids) st

def checkGasInputs (ctx : Ctx) (fuel : Nat) (st : VSt) (ids : List Hash) :
    VSt × Option VErr :=
  checkValidGo ctx fuel (.gasInputs ids) st

def checkMuxDests (ctx : Ctx) (fuel : Nat) (entryID : Hash) (i : Nat) (st : VSt)
    (dests : List ValueDestination) : VSt × Option VErr :=
  checkValidGo ctx fuel (.muxDests entryID i dests) st

def checkMuxSrcs (ctx : Ctx) (fuel : Nat) (entryID : Hash) (i : Nat) (st : VSt)
    (srcs : List ValueSource) : VSt × Option VErr :=
  checkValidGo ctx fuel (.muxSrcs entryID i srcs) st

def checkValidSrc (ctx : Ctx) (fuel : Nat) (entryID : Hash) (sourcePos : Nat) (st : VSt)
    (vsrc : ValueSource) : VSt × Option VErr :=
  checkValidGo ctx fuel (.src entryID sourcePos vsrc) st

end Doslink

namespace Doslink

/-! ### checkStandardTx, checkTimeRange, ValidateTx -/

/-- The gas-input half of `checkStandardTx`: every entry listed in
`GasInputIDs` must be a Spend whose spent output's control program, or a
Withdrawal whose control program, passes `IsP2WScript`; any other entry
type is non-standard.  (A Spend with a nil spent-output id would make the
Go code dereference nil; that case is folded into `missingEntry`.) -/
def checkStandardGasInputs (tx : Tx) : List Hash → Option VErr
  | [] => none
  | iid :: rest =>
    match alookup tx.entries iid with
    | none => some .missingEntry
    | some (.spend none _ _) => some .missingEntry
    | some (.spend (some soid) _ _) =>
      match alookup tx.entries soid with
      | none => some .missingEntry
      | some (.output _ ocp _) =>
        if IsP2WScript ocp.code then checkStandardGasInputs tx rest
        else some .notStandardTx
      | some _ => some .entryType
    | some (.withdrawal _ cp _ _ _) =>
      if IsP2WScript cp.code then checkStandardGasInputs tx rest
      else some .notStandardTx
    | some _ => some .notStandardTx

/-- The result half of `checkStandardTx`: every Output among the result
ids whose asset is native must have an `IsP2WScript` control program;
non-Output results and non-native outputs are skipped. -/
def checkStandardResults (tx : Tx) : List Hash → Option VErr
  | [] => none
  | rid :: rest =>
    match alookup tx.entries rid with
    | none => some .missingEntry
    | some (.output osrc ocp _) =>
      if osrc.value.assetId = NativeAssetID ∧ ¬IsP2WScript ocp.code then
        some .notStandardTx
      else checkStandardResults tx rest
    | some _ => checkStandardResults tx rest

/-- `checkStandardTx`. -/
def checkStandardTx (tx : Tx) : Option VErr :=
  match checkStandardGasInputs tx tx.gasInputIDs with
  | some er => some er
  | none => checkStandardResults tx tx.resultIds

/-- `checkTimeRange`. -/
def checkTimeRange (tx : Tx) (b : Block) : Option VErr :=
  if tx.timeRange = 0 then none
  else if tx.timeRange < b.height then some .badTimeRange
  else none

/-- `ValidateTx`: the transaction-level pre-checks followed by the entry
walk from the header.  The Go function always returns the validation
state, also on error; the caller reads `GasState` from it.  `bal0` is the
account-state view handed in (`stateDB`). -/
def ValidateTx (ctx : Ctx) (fuel : Nat) (bal0 : List (Nat × Int)) : VSt × Option VErr :=
  let st0 : VSt := { gas := GasState.init, cache := [], balances := bal0 }
  match ctx.block with
  | none => (st0, some .unexpectedEntryType)
  | some b =>
    if b.version = 1 ∧ ctx.tx.version ≠ 1 then (st0, some .txVersion)
    else if ctx.tx.serializedSize = 0 then (st0, some .wrongTransactionSize)
    else
      match checkTimeRange ctx.tx b with
      | some er => (st0, some er)
      | none =>
        match checkStandardTx ctx.tx with
        | some er => (st0, some er)
        | none =>
          checkValid ctx fuel ctx.tx.id st0 (.txHeader ctx.tx.version ctx.tx.resultIds)

/-! ### Block assembly (mining.NewBlockTemplate) and the block gas loop of
ValidateBlock -/

/-- `protocol.TxDesc`, reduced to the fields the assembler's ordering and
gas accounting read: admission time (`Added.Unix()`, seconds) and the
transaction hash. -/
structure TxDesc where
  added : Int
  hash : Nat
deriving DecidableEq, Repr

/-- `byTime.Less` (mining/sort.go): compares admission times only. -/
def byTimeLess (a b : TxDesc) : Bool := a.added < b.added

/-- The post-condition of Go's `sort.Sort(byTime(txs))`: no later element
is strictly less than an earlier one.  `sort.Sort` is not stable and
guarantees nothing else about the order of ties. -/
def byTimeSorted (l : List TxDesc) : Prop :=
  List.Pairwise (fun a b => ¬byTimeLess b a) l

instance (l : List TxDesc) : Decidable (byTimeSorted l) := by
  unfold byTimeSorted; infer_instance

/-- The spec-side ordering of claim C8: admission time ascending with ties
broken by hash ascending. -/
def specOrdered (l : List TxDesc) : Prop :=
  List.Pairwise (fun a b => a.added < b.added ∨ (a.added = b.added ∧ a.hash < b.hash)) l

instance (l : List TxDesc) : Decidable (specOrdered l) := by
  unfold specOrdered; infer_instance

/-- One pool candidate as the template loop sees it: the gas it consumed
(`uint64(gasStatus.GasUsed)` after validation), and the outcomes of the
three fallible steps (`GetTransactionsUtxo`, `ValidateTx` together with
`GasValid`, `view.ApplyTransaction`). -/
structure Cand where
  gasUsed : Nat
  utxoErr : Bool
  valErr : Bool
  gasValid : Bool
  applyErr : Bool
deriving DecidableEq, Repr

/-- The transaction-selection loop of `NewBlockTemplate`, returning the
gas amounts of the included transactions in order.  `acc` is the running
`gasUsed` sum. -/
def templateLoop (acc : Nat) : List Cand → List Nat
  | [] => []
  | c :: rest =>
    if c.utxoErr then templateLoop acc rest
    else if c.valErr ∧ ¬c.gasValid then templateLoop acc rest
    else if MaxBlockGas < acc + c.gasUsed then []
    else if c.applyErr then templateLoop acc rest
    else if acc + c.gasUsed = MaxBlockGas then [c.gasUsed]
    else c.gasUsed :: templateLoop (acc + c.gasUsed) rest

/-- The gas of the transactions `NewBlockTemplate` includes (besides the
coinbase, which is built afterwards and not counted against the cap). -/
def templateIncludedGas (cands : List Cand) : List Nat :=
  templateLoop 0 cands

/-- The gas-accumulation facet of `ValidateBlock`'s transaction loop: each
transaction's validation must end `GasValid` (otherwise its error is
fatal), and after adding each transaction's gas the running block sum must
not exceed `MaxBlockGas`, else `errOverBlockLimit`.  Inputs are the per-tx
`(uint64(GasUsed), GasValid)` pairs; the result is the final sum. -/
def validateBlockGasLoop (acc : Nat) : List (Nat × Bool) → Except VErr Nat
  | [] => .ok acc
  | (g, gv) :: rest =>
    if ¬gv then .error .unexpectedEntryType
    else if MaxBlockGas < acc + g then .error .overBlockLimit
    else validateBlockGasLoop (acc + g) rest

def validateBlockGas (txs : List (Nat × Bool)) : Except VErr Nat :=
  validateBlockGasLoop 0 txs

/-! ### The deposit / withdraw opcodes (protocol/vm/vaab.go) -/

/-- The slice of `virtualMachine` state and `vm.Context` that `opDeposit`
and `opWithdraw` read and write: the entry's asset id bytes and amount,
the data stack, and the account-state balances. -/
structure VMSt where
  assetID : List Nat
  amount : Nat
  dataStack : List (List Nat)
  balances : List (Nat × Int)
deriving DecidableEq, Repr

/-- `vm.pop(false)`: `ErrDataStackUnderflow` on an empty stack. -/
def vmPop (vm : VMSt) : Except VErr (List Nat × VMSt) :=
  match vm.dataStack with
  | [] => .error .dataStackUnderflow
  | x :: rest => .ok (x, { vm with dataStack := rest })

/-- `vm.pushBool(true, false)`: pushes `[1]` (`[]` would be false). -/
def vmPushBool (vm : VMSt) (b : Bool) : VMSt :=
  { vm with dataStack := (if b then [1] else []) :: vm.dataStack }

/-- `evm.CanTransfer`: balance at `addr` is at least `amount`. -/
def CanTransfer (bal : List (Nat × Int)) (addr : Nat) (amount : Nat) : Bool :=
  decide ((amount : Int) ≤ getBalance bal addr)

/-- `opDeposit`: pop address, vm type (must be zero) and version (must be
zero); if the entry's asset is native, credit the address's balance by the
entry's amount; push true. -/
def opDeposit (vm : VMSt) : Except VErr VMSt := do
  let (address, vm1) ← vmPop vm
  let (vmTypeBytes, vm2) ← vmPop vm1
  if 0 < bytesToNat vmTypeBytes then throw .unknownVmType
  let (versionBytes, vm3) ← vmPop vm2
  if 0 < bytesToNat versionBytes then throw .unknownVersion
  let caller := bytesToAddress address
  let vm4 :=
    if vm3.assetID = nativeAssetBytes then
      { vm3 with balances := addBalance vm3.balances caller (Int.ofNat vm3.amount) }
    else vm3
  return vmPushBool vm4 true

/-- `opWithdraw`: pop address, vm type and version as in `opDeposit`; if
the entry's asset is native, fail with `ErrInsufficientBalance` when the
address's balance is below the entry's amount (no state change is
committed), otherwise debit it; push true. -/
def opWithdraw (vm : VMSt) : Except VErr VMSt := do
  let (address, vm1) ← vmPop vm
  let (vmTypeBytes, vm2) ← vmPop vm1
  if 0 < bytesToNat vmTypeBytes then throw .unknownVmType
  let (versionBytes, vm3) ← vmPop vm2
  if 0 < bytesToNat versionBytes then throw .unknownVersion
  let caller := bytesToAddress address
  let vm4 ←
    if vm3.assetID = nativeAssetBytes then
      if ¬CanTransfer vm3.balances caller vm3.amount then throw .insufficientBalance
      else pure { vm3 with balances := subBalance vm3.balances caller (Int.ofNat vm3.amount) }
    else pure vm3
  return vmPushBool vm4 true

end Doslink

namespace Doslink

/-! ### Symmetry predicates and concrete instances used by the theorems -/

/-- The value destination an entry exposes at a given position — exactly
the selection `checkValidSrc` performs on the referenced entry: position
0 only for the single-destination input variants, an index into
`witnessDestinations` for a mux, nothing for the other variants. -/
def entryDestAt (e : Entry) (pos : Nat) : Option ValueDestination :=
  match e with
  | .coinbase _ d => if pos = 0 then some d else none
  | .issuance _ _ _ _ d => if pos = 0 then some d else none
  | .spend _ _ d => if pos = 0 then some d else none
  | .creation _ _ _ _ d => if pos = 0 then some d else none
  | .call _ _ _ _ _ d => if pos = 0 then some d else none
  | .contract _ _ _ _ _ d => if pos = 0 then some d else none
  | .withdrawal _ _ _ _ d => if pos = 0 then some d else none
  | .mux _ _ dests => dests.get? pos
  | _ => none

/-- The value source an entry exposes at a given position — exactly the
selection `checkValidDest` performs on the referenced entry. -/
def entrySrcAt (e : Entry) (pos : Nat) : Option ValueSource :=
  match e with
  | .output src _ _ => if pos = 0 then some src else none
  | .retirement src _ => if pos = 0 then some src else none
  | .deposit src _ => if pos = 0 then some src else none
  | .mux srcs _ _ => srcs.get? pos
  | _ => none

/-- All value sources an entry holds, in position order. -/
def entrySources (e : Entry) : List ValueSource :=
  match e with
  | .mux srcs _ _ => srcs
  | .output src _ _ => [src]
  | .retirement src _ => [src]
  | .deposit src _ => [src]
  | _ => []

/-- The value destinations whose symmetry `checkValid` actually checks:
the mux destinations and the witness destination of issuance, spend,
coinbase and withdrawal entries.  (Creation, call and contract entries
also hold a witness destination, but the validator never runs
`checkValidDest` on it.) -/
def entryCheckedDests (e : Entry) : List ValueDestination :=
  match e with
  | .mux _ _ dests => dests
  | .issuance _ _ _ _ d => [d]
  | .spend _ _ d => [d]
  | .coinbase _ d => [d]
  | .withdrawal _ _ _ _ d => [d]
  | _ => []

/-- Reference symmetry for a value source held by the entry with id
`eid` at source position `p`: the referenced entry exists and its
destination at the source's position points back at `eid` with position
`p` and equal value. -/
def sourceSymmetric (tx : Tx) (eid : Hash) (p : Nat) (vs : ValueSource) : Prop :=
  ∃ F, alookup tx.entries vs.ref = some F ∧
    ∃ d, entryDestAt F vs.position = some d ∧
      d.ref = eid ∧ d.position = p ∧ d.value = vs.value

/-- Reference symmetry for a value destination, dually. -/
def destSymmetric (tx : Tx) (eid : Hash) (p : Nat) (vd : ValueDestination) : Prop :=
  ∃ F, alookup tx.entries vd.ref = some F ∧
    ∃ s, entrySrcAt F vd.position = some s ∧
      s.ref = eid ∧ s.position = p ∧ s.value = vd.value

/-- A VM oracle that always succeeds without touching state or gas. -/
def vmVerifyTrivial : Program → List (List Nat) → Hash → Int →
    List (Nat × Int) → List (Nat × Int) × Int × Option VErr :=
  fun _ _ _ gl bal => (bal, gl, none)

/-- The all-zero initial validation state with empty balances. -/
def stInit : VSt := { gas := GasState.init, cache := [], balances := [] }

/-- A transaction with zero serialized size, for exercising the
`ValidateTx` pre-checks. -/
def txZeroSize : Tx :=
  { id := 0, version := 1, serializedSize := 0, timeRange := 0,
    resultIds := [], muxId := 0, entries := [], gasInputIDs := [] }

def ctxPre : Ctx :=
  { tx := txZeroSize, block := some ⟨1, 0, []⟩, entryIdOf := fun _ => 0,
    vmVerify := vmVerifyTrivial, computeAssetID := fun n => n, supportBalance := false }

/-- A context whose block pointer is nil, for the coinbase check. -/
def ctxNoBlock : Ctx :=
  { tx := txZeroSize, block := none, entryIdOf := fun _ => 0,
    vmVerify := vmVerifyTrivial, computeAssetID := fun n => n, supportBalance := false }

/-- An op-deposit-shaped control program:
`OP_0 OP_0 DATA_20 <20 zero bytes> OP_DEPOSIT`. -/
def depositProgBytes : List Nat :=
  [0x00, 0x00, 0x14] ++ List.replicate 20 0 ++ [0xd0]

/-- A transaction whose only result is a native-asset output controlled
by an op-deposit program (recognized by the classifier, rejected by
`checkStandardTx`). -/
def txDepositOut : Tx :=
  { id := 0, version := 1, serializedSize := 1, timeRange := 0,
    resultIds := [1], muxId := 0,
    entries := [(1, .output ⟨2, ⟨NativeAssetID, 5⟩, 0⟩ ⟨1, depositProgBytes⟩ 0)],
    gasInputIDs := [] }

/-! A concrete accepted transaction carrying an unreachable, asymmetric
entry (id 9): coinbase (id 1) → mux (id 3) → output (id 2), all native
asset, amount 5; the orphan output at id 9 claims a mux source that the
mux does not reciprocate, and `ValidateTx` never visits it. -/

def cbEntry : Entry := .coinbase [] ⟨3, ⟨NativeAssetID, 5⟩, 0⟩

def muxEntry : Entry :=
  .mux [⟨1, ⟨NativeAssetID, 5⟩, 0⟩] ⟨1, [0x51]⟩ [⟨2, ⟨NativeAssetID, 5⟩, 0⟩]

def outEntry : Entry := .output ⟨3, ⟨NativeAssetID, 5⟩, 0⟩ ⟨1, [0x51]⟩ 0

def orphanEntry : Entry := .output ⟨3, ⟨NativeAssetID, 7⟩, 0⟩ ⟨1, [0x51]⟩ 1

def txOrphan : Tx :=
  { id := 0, version := 1, serializedSize := 1, timeRange := 0,
    resultIds := [2], muxId := 3,
    entries := [(1, cbEntry), (3, muxEntry), (2, outEntry), (9, orphanEntry)],
    gasInputIDs := [] }

/-- Content addresses for the concrete entries (consistent with the
entry-map keys of `txOrphan`). -/
def entryIdOrphan (e : Entry) : Hash :=
  if e = cbEntry then 1
  else if e = muxEntry then 3
  else if e = outEntry then 2
  else if e = orphanEntry then 9
  else 100

def ctxOrphan : Ctx :=
  { tx := txOrphan, block := some ⟨1, 5, [0]⟩, entryIdOf := entryIdOrphan,
    vmVerify := vmVerifyTrivial, computeAssetID := fun n => n, supportBalance := false }

/-! ### Standardness predicates (claim C6) -/

/-- The spec's "recognized by the program classifier" family: P2W
(P2WSH, straightforward TRUE/FAIL, P2Contract) or op-deposit,
op-withdraw, unspendable. -/
def recognizedByClassifier (code : List Nat) : Bool :=
  IsP2WScript code || IsOpDeposit code || IsOpWithdraw code || IsUnspendable code

/-- The program a gas input pays from, as named by the claim: the spent
output's control program for a Spend, the control program for a
Withdrawal. -/
def gasInputProg (tx : Tx) (iid : Hash) : Option Program :=
  match alookup tx.entries iid with
  | some (.spend (some soid) _ _) =>
    match alookup tx.entries soid with
    | some (.output _ ocp _) => some ocp
    | _ => none
  | some (.withdrawal _ cp _ _ _) => some cp
  | _ => none

def gasInputProgs (tx : Tx) : List Program :=
  tx.gasInputIDs.filterMap (gasInputProg tx)

/-- The control programs of the native-asset Outputs among the results. -/
def nativeOutputProgs (tx : Tx) : List Program :=
  tx.resultIds.filterMap fun rid =>
    match alookup tx.entries rid with
    | some (.output osrc ocp _) =>
      if osrc.value.assetId = NativeAssetID then some ocp else none
    | _ => none

/-- Claim C6 as stated, for one transaction: `checkStandardTx` passes iff
every gas-paying input's program and every native output's control
program is recognized by the classifier (P2W family or op-deposit /
op-withdraw / unspendable). -/
def checkStandardTxClaim (tx : Tx) : Prop :=
  checkStandardTx tx = none ↔
    ((∀ p ∈ gasInputProgs tx, recognizedByClassifier p.code = true) ∧
      (∀ p ∈ nativeOutputProgs tx, recognizedByClassifier p.code = true))

/-- What `checkStandardTx` actually requires of one gas input: it is a
Spend of an existing Output whose control program is `IsP2WScript`, or a
Withdrawal whose control program is `IsP2WScript`. -/
def standardGasInputOK (tx : Tx) (iid : Hash) : Prop :=
  (∃ soid args d osrc ocp oord,
      alookup tx.entries iid = some (.spend (some soid) args d) ∧
      alookup tx.entries soid = some (.output osrc ocp oord) ∧
      IsP2WScript ocp.code = true) ∨
  (∃ v cp wp args d,
      alookup tx.entries iid = some (.withdrawal v cp wp args d) ∧
      IsP2WScript cp.code = true)

/-- What `checkStandardTx` requires of one result id: the entry exists,
and if it is a native-asset Output its control program is
`IsP2WScript`. -/
def standardResultOK (tx : Tx) (rid : Hash) : Prop :=
  ∃ e, alookup tx.entries rid = some e ∧
    ∀ osrc ocp oord, e = .output osrc ocp oord →
      osrc.value.assetId = NativeAssetID → IsP2WScript ocp.code = true


/-! ### Unfolding equations reproducing the Go mutual recursion -/

theorem checkValid_unfold (ctx : Ctx) (fuel : Nat) (entryID : Hash) (st : VSt) (e : Entry) :
    checkValid ctx fuel entryID st e =
  (  match fuel with
    | 0 => (st, some .fuelExhausted)
    | f + 1 =>
      let eid := ctx.entryIdOf e
      match alookup st.cache eid with
      | some r => (st, r)
      | none =>
        let res := checkValidBody ctx f entryID st e
        ({ res.1 with cache := aupdate res.1.cache eid res.2 }, res.2) : VSt × Option VErr) := by
  cases fuel with
  | zero => rfl
  | succ f => rfl

theorem checkValidBody_unfold (ctx : Ctx) (fuel : Nat) (entryID : Hash) (st : VSt) (e : Entry) :
    checkValidBody ctx fuel entryID st e =
  (  match fuel with
    | 0 => (st, some .fuelExhausted)
    | f + 1 =>
      match e with
      | .txHeader version resultIds =>
        match checkHeaderResults ctx f st resultIds with
        | (st1, some er) => (st1, some er)
        | (st1, none) =>
          if version = 1 ∧ resultIds = [] then
            match alookup ctx.tx.entries ctx.tx.muxId with
            | none => (st1, some .missingEntry)
            | some me => checkValid ctx f ctx.tx.muxId st1 me
          else (st1, none)
      | .mux sources _ dests =>
        match muxParitySources [] sources with
        | .error er => (st, some er)
        | .ok p =>
          match muxParityDests p dests with
          | .error er => (st, some er)
          | .ok p2 =>
            match muxApplyParity st.gas (uint64ToInt64 ctx.tx.serializedSize) p2 with
            | (g1, some er) => ({ st with gas := g1 }, some er)
            | (g1, none) =>
              match checkGasInputs ctx f { st with gas := g1 } ctx.tx.gasInputIDs with
              | (st2, some er) => (st2, some er)
              | (st2, none) =>
                match checkMuxDests ctx f entryID 0 st2 dests with
                | (st3, some er) => (st3, some er)
                | (st3, none) =>
                  let r4 :=
                    if ctx.tx.gasInputIDs ≠ [] then
                      let gr := st3.gas.setGasValid
                      ({ st3 with gas := gr.1 }, gr.2)
                    else (st3, none)
                  match r4 with
                  | (st4, some er) => (st4, some er)
                  | (st4, none) => checkMuxSrcs ctx f entryID 0 st4 sources
      | .output src cp _ =>
        match checkValidSrc ctx f entryID 0 st src with
        | (st1, some er) => (st1, some er)
        | (st1, none) =>
          if ctx.supportBalance ∧ src.value.assetId = NativeAssetID then
            match GetHashFromStandardProg cp.code with
            | .error er => (st1, some er)
            | .ok h =>
              ({ st1 with
                  balances := addBalance st1.balances (bytesToAddress h)
                    (Int.ofNat src.value.amount) }, none)
          else (st1, none)
      | .retirement src _ =>
        checkValidSrc ctx f entryID 0 st src
      | .issuance value assetDef issProg args dest =>
        if ctx.computeAssetID assetDef ≠ value.assetId then (st, some .mismatchedAssetID)
        else
          match ctx.vmVerify issProg args entryID st.gas.gasLeft st.balances with
          | (bal1, _, some er) => ({ st with balances := bal1 }, some er)
          | (bal1, gl, none) =>
            let stv := { st with balances := bal1 }
            match stv.gas.updateUsage gl with
            | (g1, some er) => ({ stv with gas := g1 }, some er)
            | (g1, none) => checkValidDest ctx entryID 0 { stv with gas := g1 } dest
      | .creation nonce fromProg input args _ =>
        match ctx.vmVerify fromProg args entryID st.gas.gasLeft st.balances with
        | (bal1, _, some er) => ({ st with balances := bal1 }, some er)
        | (bal1, gl, none) =>
          let stv := { st with balances := bal1 }
          match stv.gas.updateUsage gl with
          | (g1, some er) => ({ stv with gas := g1 }, some er)
          | (g1, none) =>
            let st1 := { stv with gas := g1 }
            if IsOpCreate input.code then
              match GetHashFromStandardProg fromProg.code with
              | .error er => (st1, some er)
              | .ok fromHash =>
                match ctx.vmVerify input [fromHash, natToBytes nonce] entryID
                    st1.gas.gasLeft st1.balances with
                | (bal2, _, some er) => ({ st1 with balances := bal2 }, some er)
                | (bal2, gl2, none) =>
                  let stw := { st1 with balances := bal2 }
                  match stw.gas.updateUsage gl2 with
                  | (g2, r) => ({ stw with gas := g2 }, r)
            else (st1, none)
      | .call nonce fromProg toProg input args _ =>
        match ctx.vmVerify fromProg args entryID st.gas.gasLeft st.balances with
        | (bal1, _, some er) => ({ st with balances := bal1 }, some er)
        | (bal1, gl, none) =>
          let stv := { st with balances := bal1 }
          match stv.gas.updateUsage gl with
          | (g1, some er) => ({ stv with gas := g1 }, some er)
          | (g1, none) =>
            let st1 := { stv with gas := g1 }
            if IsOpCall input.code then
              match GetHashFromStandardProg fromProg.code with
              | .error er => (st1, some er)
              | .ok fromHash =>
                match ctx.vmVerify input [fromHash, natToBytes nonce, toProg.code] entryID
                    st1.gas.gasLeft st1.balances with
                | (bal2, _, some er) => ({ st1 with balances := bal2 }, some er)
                | (bal2, gl2, none) =>
                  let stw := { st1 with balances := bal2 }
                  match stw.gas.updateUsage gl2 with
                  | (g2, r) => ({ stw with gas := g2 }, r)
            else (st1, none)
      | .contract nonce fromProg toCode input args _ =>
        match ctx.vmVerify fromProg args entryID st.gas.gasLeft st.balances with
        | (bal1, _, some er) => ({ st with balances := bal1 }, some er)
        | (bal1, gl, none) =>
          let stv := { st with balances := bal1 }
          match stv.gas.updateUsage gl with
          | (g1, some er) => ({ stv with gas := g1 }, some er)
          | (g1, none) =>
            let st1 := { stv with gas := g1 }
            if IsOpContract input.code then
              match GetHashFromStandardProg fromProg.code with
              | .error er => (st1, some er)
              | .ok fromHash =>
                match ctx.vmVerify input [fromHash, natToBytes nonce, toCode] entryID
                    st1.gas.gasLeft st1.balances with
                | (bal2, _, some er) => ({ st1 with balances := bal2 }, some er)
                | (bal2, gl2, none) =>
                  let stw := { st1 with balances := bal2 }
                  match stw.gas.updateUsage gl2 with
                  | (g2, r) => ({ stw with gas := g2 }, r)
            else (st1, none)
      | .deposit src cp =>
        match checkValidSrc ctx f entryID 0 st src with
        | (st1, some er) => (st1, some er)
        | (st1, none) =>
          if IsOpDeposit cp.code then
            match ctx.vmVerify cp [] entryID st1.gas.gasLeft st1.balances with
            | (bal2, _, some er) => ({ st1 with balances := bal2 }, some er)
            | (bal2, gl2, none) =>
              let stw := { st1 with balances := bal2 }
              match stw.gas.updateUsage gl2 with
              | (g2, r) => ({ stw with gas := g2 }, r)
          else (st1, none)
      | .withdrawal _ cp wp args dest =>
        match ctx.vmVerify cp args entryID st.gas.gasLeft st.balances with
        | (bal1, _, some er) => ({ st with balances := bal1 }, some er)
        | (bal1, gl, none) =>
          let stv := { st with balances := bal1 }
          match stv.gas.updateUsage gl with
          | (g1, some er) => ({ stv with gas := g1 }, some er)
          | (g1, none) =>
            match checkValidDest ctx entryID 0 { stv with gas := g1 } dest with
            | (st2, some er) => (st2, some er)
            | (st2, none) =>
              if IsOpWithdraw wp.code then
                match ctx.vmVerify wp [] entryID st2.gas.gasLeft st2.balances with
                | (bal2, _, some er) => ({ st2 with balances := bal2 }, some er)
                | (bal2, gl2, none) =>
                  let stw := { st2 with balances := bal2 }
                  match stw.gas.updateUsage gl2 with
                  | (g2, r) => ({ stw with gas := g2 }, r)
              else (st2, none)
      | .spend spentOutputId args dest =>
        match spentOutputId with
        | none => (st, some .missingField)
        | some soid =>
          match alookup ctx.tx.entries soid with
          | none => (st, some .missingEntry)
          | some (.output osrc ocp _) =>
            match ctx.vmVerify ocp args entryID st.gas.gasLeft st.balances with
            | (bal1, _, some er) => ({ st with balances := bal1 }, some er)
            | (bal1, gl, none) =>
              let stv := { st with balances := bal1 }
              match stv.gas.updateUsage gl with
              | (g1, some er) => ({ stv with gas := g1 }, some er)
              | (g1, none) =>
                let st1 := { stv with gas := g1 }
                if osrc.value ≠ dest.value then (st1, some .mismatchedValue)
                else
                  match checkValidDest ctx entryID 0 st1 dest with
                  | (st2, some er) => (st2, some er)
                  | (st2, none) =>
                    if ctx.supportBalance ∧ osrc.value.assetId = NativeAssetID then
                      match GetHashFromStandardProg ocp.code with
                      | .error er => (st2, some er)
                      | .ok h =>
                        ({ st2 with
                            balances := subBalance st2.balances (bytesToAddress h)
                              (Int.ofNat osrc.value.amount) }, none)
                    else (st2, none)
          | some _ => (st, some .entryType)
      | .coinbase arb dest =>
        match ctx.block with
        | none => (st, some .wrongCoinbaseTransaction)
        | some b =>
          if b.transactions.head? ≠ some ctx.tx.id then (st, some .wrongCoinbaseTransaction)
          else if dest.value.assetId ≠ NativeAssetID then (st, some .wrongCoinbaseAsset)
          else if CoinbaseArbitrarySizeLimit < arb.length then
            (st, some .coinbaseArbitraryOversize)
          else
            match checkValidDest ctx entryID 0 st dest with
            | (st1, some er) => (st1, some er)
            | (st1, none) =>
              ({ st1 with gas := { st1.gas with gasValid := true } }, none) : VSt × Option VErr) := by
  cases fuel with
  | zero => rfl
  | succ f => cases e <;> rfl

theorem checkHeaderResults_unfold (ctx : Ctx) (fuel : Nat) (st : VSt) (ids : List Hash) :
    checkHeaderResults ctx fuel st ids =
  (  match fuel with
    | 0 => (st, some .fuelExhausted)
    | f + 1 =>
      match ids with
      | [] => (st, none)
      | rid :: rest =>
        match alookup ctx.tx.entries rid with
        | none => (st, some .missingEntry)
        | some e =>
          match checkValid ctx f rid st e with
          | (st1, some er) => (st1, some er)
          | (st1, none) => checkHeaderResults ctx f st1 rest : VSt × Option VErr) := by
  cases fuel with
  | zero => rfl
  | succ f => cases ids <;> rfl

theorem checkGasInputs_unfold (ctx : Ctx) (fuel : Nat) (st : VSt) (ids : List Hash) :
    checkGasInputs ctx fuel st ids =
  (  match fuel with
    | 0 => (st, some .fuelExhausted)
    | f + 1 =>
      match ids with
      | [] => (st, none)
      | iid :: rest =>
        match alookup ctx.tx.entries iid with
        | none => (st, some .missingEntry)
        | some e =>
          match checkValid ctx f iid st e with
          | (st1, some er) => (st1, some er)
          | (st1, none) => checkGasInputs ctx f st1 rest : VSt × Option VErr) := by
  cases fuel with
  | zero => rfl
  | succ f => cases ids <;> rfl

theorem checkMuxDests_unfold (ctx : Ctx) (fuel : Nat) (entryID : Hash) (i : Nat) (st : VSt)
    (dests : List ValueDestination) :
    checkMuxDests ctx fuel entryID i st dests =
  (  match fuel with
    | 0 => (st, some .fuelExhausted)
    | f + 1 =>
      match dests with
      | [] => (st, none)
      | d :: rest =>
        match checkValidDest ctx entryID i st d with
        | (st1, some er) => (st1, some er)
        | (st1, none) => checkMuxDests ctx f entryID (i + 1) st1 rest : VSt × Option VErr) := by
  cases fuel with
  | zero => rfl
  | succ f => cases dests <;> rfl

theorem checkMuxSrcs_unfold (ctx : Ctx) (fuel : Nat) (entryID : Hash) (i : Nat) (st : VSt)
    (srcs : List ValueSource) :
    checkMuxSrcs ctx fuel entryID i st srcs =
  (  match fuel with
    | 0 => (st, some .fuelExhausted)
    | f + 1 =>
      match srcs with
      | [] => (st, none)
      | s :: rest =>
        match checkValidSrc ctx f entryID i st s with
        | (st1, some er) => (st1, some er)
        | (st1, none) => checkMuxSrcs ctx f entryID (i + 1) st1 rest : VSt × Option VErr) := by
  cases fuel with
  | zero => rfl
  | succ f => cases srcs <;> rfl

theorem checkValidSrc_unfold (ctx : Ctx) (fuel : Nat) (entryID : Hash) (sourcePos : Nat) (st : VSt)
    (vsrc : ValueSource) :
    checkValidSrc ctx fuel entryID sourcePos st vsrc =
  (  match fuel with
    | 0 => (st, some .fuelExhausted)
    | f + 1 =>
      match alookup ctx.tx.entries vsrc.ref with
      | none => (st, some .missingEntry)
      | some e =>
        match checkValid ctx f vsrc.ref st e with
        | (st1, some er) => (st1, some er)
        | (st1, none) =>
          let destRes : Except VErr ValueDestination :=
            match e with
            | .coinbase _ d => if vsrc.position ≠ 0 then .error .badPosition else .ok d
            | .issuance _ _ _ _ d => if vsrc.position ≠ 0 then .error .badPosition else .ok d
            | .spend _ _ d => if vsrc.position ≠ 0 then .error .badPosition else .ok d
            | .creation _ _ _ _ d => if vsrc.position ≠ 0 then .error .badPosition else .ok d
            | .call _ _ _ _ _ d => if vsrc.position ≠ 0 then .error .badPosition else .ok d
            | .contract _ _ _ _ _ d => if vsrc.position ≠ 0 then .error .badPosition else .ok d
            | .withdrawal _ _ _ _ d => if vsrc.position ≠ 0 then .error .badPosition else .ok d
            | .mux _ _ dests =>
              match dests.get? vsrc.position with
              | none => .error .badPosition
              | some d => .ok d
            | _ => .error .entryType
          match destRes with
          | .error er => (st1, some er)
          | .ok d =>
            if d.ref ≠ entryID then (st1, some .mismatchedReference)
            else if d.position ≠ sourcePos then (st1, some .mismatchedPosition)
            else if d.value ≠ vsrc.value then (st1, some .mismatchedValue)
            else (st1, none) : VSt × Option VErr) := by
  cases fuel with
  | zero => rfl
  | succ f => rfl


theorem checkMuxSrcs_succ_cons (ctx : Ctx) (f : Nat) (eid : Hash) (i : Nat)
    (st : VSt) (s : ValueSource) (rest : List ValueSource) :
    checkMuxSrcs ctx (f + 1) eid i st (s :: rest) =
      match checkValidSrc ctx f eid i st s with
      | (st1, some er) => (st1, some er)
      | (st1, none) => checkMuxSrcs ctx f eid (i + 1) st1 rest := rfl

theorem checkMuxDests_succ_cons (ctx : Ctx) (f : Nat) (eid : Hash) (i : Nat)
    (st : VSt) (d : ValueDestination) (rest : List ValueDestination) :
    checkMuxDests ctx (f + 1) eid i st (d :: rest) =
      match checkValidDest ctx eid i st d with
      | (st1, some er) => (st1, some er)
      | (st1, none) => checkMuxDests ctx f eid (i + 1) st1 rest := rfl

/-! ### Per-asset sums over mux sources and destinations (claim C1) -/

def srcSum (sources : List ValueSource) (aid : Nat) : Int :=
  (sources.map fun s => if s.value.assetId = aid then (s.value.amount : Int) else 0).sum

def dstSum (dests : List ValueDestination) (aid : Nat) : Int :=
  (dests.map fun d => if d.value.assetId = aid then (d.value.amount : Int) else 0).sum

/-- The value a parity map holds for an asset (Go map read: zero when
absent). -/
def valueAt (p : List (Nat × Int)) (aid : Nat) : Int :=
  (alookup p aid).getD 0

/-! ### Shared arithmetic lemmas -/

theorem wrapInt64_eq_self {x : Int} (h : inInt64 x) : wrapInt64 x = x := by
  obtain ⟨h1, h2⟩ := h
  unfold wrapInt64
  rw [Int.emod_eq_of_lt (by unfold int64Min at h1; omega) (by unfold int64Max at h2; omega)]
  omega

theorem subInt64_eq_some {a b : Int} (h : inInt64 (a - b)) : subInt64 a b = some (a - b) := by
  simp [subInt64, h]

/-! ### Claim C7 — the block subsidy schedule -/

/-- C7 (amended): for every block height `h` with `0 < h < 2^64 - 1`,
`BlockSubsidy h = 750,000,000`.  (At the maximal uint64 height
`2^64 - 1` the reduction interval divides once and the subsidy halves.) -/
theorem blockSubsidy_constant (h : Nat) (h0 : 0 < h) (hlt : h < 2 ^ 64 - 1) :
    BlockSubsidy h = 750000000 := by
  unfold BlockSubsidy
  rw [if_neg (Nat.pos_iff_ne_zero.mp h0)]
  unfold subsidyReductionInterval
  rw [Nat.div_eq_of_lt hlt]
  rfl

/-- C7 witness: the amended theorem applied at height 5. -/
theorem blockSubsidy_constant_witness :
    0 < 5 ∧ 5 < 2 ^ 64 - 1 ∧ BlockSubsidy 5 = 750000000 :=
  ⟨by norm_num, by norm_num, blockSubsidy_constant 5 (by norm_num) (by norm_num)⟩

/-- C7 counterexample: at the maximal uint64 height (a valid argument of
`BlockSubsidy`), `height / subsidyReductionInterval = 1` and the subsidy
is 375,000,000, refuting the claim for every `h > 0`. -/
theorem blockSubsidy_max_height :
    0 < 2 ^ 64 - 1 ∧ 2 ^ 64 - 1 < 2 ^ 64 ∧
      BlockSubsidy (2 ^ 64 - 1) = 375000000 ∧ (375000000 : Nat) ≠ 750000000 := by
  refine ⟨by norm_num, by norm_num, ?_, by norm_num⟩
  unfold BlockSubsidy subsidyReductionInterval
  norm_num
  rfl

/-! ### Claim C3 — GasState.updateUsage -/

/-- C3 (amended): for every int64-valued `GasState` and every
`new_gas_left` with `0 ≤ new_gas_left ≤ gas_left`, provided the unchecked
addition `gas_used += gas_left - new_gas_left` does not overflow int64,
`updateUsage` adds `gas_left - new_gas_left` to `gas_used`, sets
`gas_left` to `new_gas_left`, leaves the other fields unchanged, and
fails — necessarily with `ErrOverGasCredit` — exactly when `gas_valid`
is false and, after the update, `gas_used > DefaultGasCredit` or
`storage_gas > gas_left`. -/
theorem updateUsage_spec (g : GasState) (n : Int)
    (hgl : inInt64 g.gasLeft) (hgu : inInt64 g.gasUsed)
    (hn0 : 0 ≤ n) (hng : n ≤ g.gasLeft)
    (hnw : g.gasUsed + (g.gasLeft - n) ≤ int64Max) :
    (g.updateUsage n).1.gasUsed = g.gasUsed + (g.gasLeft - n) ∧
    (g.updateUsage n).1.gasLeft = n ∧
    (g.updateUsage n).1.storageGas = g.storageGas ∧
    (g.updateUsage n).1.gasValid = g.gasValid ∧
    (g.updateUsage n).1.assetValue = g.assetValue ∧
    ((g.updateUsage n).2 = some .overGasCredit ↔
      g.gasValid = false ∧
        (DefaultGasCredit < g.gasUsed + (g.gasLeft - n) ∨ n < g.storageGas)) ∧
    ((g.updateUsage n).2 = none ∨ (g.updateUsage n).2 = some .overGasCredit) := by
  have hsub : subInt64 g.gasLeft n = some (g.gasLeft - n) := by
    apply subInt64_eq_some
    constructor
    · have : (0 : Int) ≤ g.gasLeft - n := by omega
      unfold int64Min; omega
    · obtain ⟨_, h2⟩ := hgl; omega
  have hwrap : wrapInt64 (g.gasUsed + (g.gasLeft - n)) = g.gasUsed + (g.gasLeft - n) := by
    apply wrapInt64_eq_self
    obtain ⟨h1, _⟩ := hgu
    exact ⟨by unfold int64Min at h1 ⊢; omega, hnw⟩
  unfold GasState.updateUsage
  rw [if_neg (by omega), hsub]
  simp only [hwrap]
  by_cases hv : g.gasValid
  · simp [hv]
  · simp only [hv, Bool.false_eq_true, not_false_eq_true, true_and]
    by_cases hc : DefaultGasCredit < g.gasUsed + (g.gasLeft - n) ∨ n < g.storageGas
    · rw [if_pos hc]
      simp [hc]
    · rw [if_neg hc]
      simp [hc]

/-- C3 witness: the amended theorem applied to the gas state
`(gasLeft = 100, gasUsed = 0, storageGas = 5, gasValid = false)` and
`new_gas_left = 10`. -/
theorem updateUsage_spec_witness :
    ((GasState.mk 0 100 0 false 5).updateUsage 10).1.gasUsed = 0 + (100 - 10) ∧
      ((GasState.mk 0 100 0 false 5).updateUsage 10).1.gasLeft = 10 ∧
      ((GasState.mk 0 100 0 false 5).updateUsage 10).1.storageGas = 5 ∧
      ((GasState.mk 0 100 0 false 5).updateUsage 10).1.gasValid = false ∧
      ((GasState.mk 0 100 0 false 5).updateUsage 10).1.assetValue = 0 ∧
      (((GasState.mk 0 100 0 false 5).updateUsage 10).2 = some .overGasCredit ↔
        false = false ∧ (DefaultGasCredit < 0 + (100 - 10) ∨ (10 : Int) < 5)) ∧
      (((GasState.mk 0 100 0 false 5).updateUsage 10).2 = none ∨
        ((GasState.mk 0 100 0 false 5).updateUsage 10).2 = some .overGasCredit) :=
  updateUsage_spec (GasState.mk 0 100 0 false 5) 10 (by decide) (by decide)
    (by decide) (by decide) (by decide)

/-- C3 counterexample: at `gasUsed = int64Max`, `gasLeft = 1`,
`new_gas_left = 0` the unchecked Go addition wraps: the updated `gasUsed`
is `-2^63` instead of `int64Max + 1`, and no `ErrOverGasCredit` is
reported even though `gas_valid` is false and the claimed updated
`gas_used` exceeds the credit, refuting the claim for every `GasState`. -/
theorem updateUsage_overflow_cex :
    ((GasState.mk 0 1 int64Max false 0).updateUsage 0).2 = none ∧
      ((GasState.mk 0 1 int64Max false 0).updateUsage 0).1.gasUsed = -(2 ^ 63) ∧
      (GasState.mk 0 1 int64Max false 0).gasValid = false ∧
      DefaultGasCredit < int64Max + (1 - 0) ∧
      -(2 ^ 63) ≠ int64Max + (1 - 0) := by
  refine ⟨by decide, by decide, by decide, by decide, by decide⟩

/-! ### Claim C8 — pool iteration order -/

/-- C8 (amended): the assembler sorts the pool with the `byTime`
comparator, which compares admission times only; any `byTime`-sorted
iteration order is nondecreasing in admission time, but transactions with
equal admission times are not further ordered (in particular not by
hash — both relative orders of an equal-time pair satisfy the sort's
contract), so the inclusion order is not uniquely determined. -/
theorem byTime_sorted_time_only (l : List TxDesc) (h : byTimeSorted l) :
    List.Pairwise (fun a b => a.added ≤ b.added) l ∧
      (∀ a b : TxDesc, a.added = b.added →
        byTimeLess a b = false ∧ byTimeLess b a = false) ∧
      (∀ a b : TxDesc, a.added = b.added →
        byTimeSorted [a, b] ∧ byTimeSorted [b, a]) := by
  refine ⟨?_, ?_, ?_⟩
  · exact h.imp (fun hab => by simp [byTimeLess] at hab; omega)
  · intro a b hab
    constructor <;> simp [byTimeLess] <;> omega
  · intro a b hab
    constructor <;> (unfold byTimeSorted; simp [byTimeLess]; omega)

/-- C8 witness: the amended theorem applied to a concrete sorted pool. -/
theorem byTime_sorted_time_only_witness :
    List.Pairwise (fun a b : TxDesc => a.added ≤ b.added) [⟨1, 7⟩, ⟨2, 3⟩] ∧
      (∀ a b : TxDesc, a.added = b.added →
        byTimeLess a b = false ∧ byTimeLess b a = false) ∧
      (∀ a b : TxDesc, a.added = b.added →
        byTimeSorted [a, b] ∧ byTimeSorted [b, a]) :=
  byTime_sorted_time_only [⟨1, 7⟩, ⟨2, 3⟩] (by decide)

/-- C8 counterexample: a two-element pool with equal admission times and
descending hashes is `byTime`-sorted (a legal result of the assembler's
`sort.Sort`) but not ordered by admission time with hash tiebreak,
refuting the claimed ordering. -/
theorem byTime_tie_order :
    byTimeSorted [⟨5, 2⟩, ⟨5, 1⟩] ∧ ¬specOrdered [⟨5, 2⟩, ⟨5, 1⟩] := by
  decide

end Doslink

namespace Doslink

/-! ### Claim C4 — the block gas cap -/

theorem templateLoop_sum_le (cands : List Cand) :
    ∀ acc, acc ≤ MaxBlockGas → acc + (templateLoop acc cands).sum ≤ MaxBlockGas := by
  induction cands with
  | nil => intro acc h; simpa [templateLoop] using h
  | cons c rest ih =>
    intro acc h
    unfold templateLoop
    split_ifs with h1 h2 h3 h4 h5
    · exact ih acc h
    · exact ih acc h
    · simpa using h
    · exact ih acc h
    · simpa using Nat.le_of_eq h5
    · have hle : acc + c.gasUsed ≤ MaxBlockGas := by omega
      have := ih (acc + c.gasUsed) hle
      simp only [List.sum_cons]
      omega

theorem validateBlockGasLoop_eq (txs : List (Nat × Bool)) :
    ∀ acc, acc ≤ MaxBlockGas → (∀ p ∈ txs, p.2 = true) →
      validateBlockGasLoop acc txs =
        if MaxBlockGas < acc + (txs.map Prod.fst).sum then .error .overBlockLimit
        else .ok (acc + (txs.map Prod.fst).sum) := by
  induction txs with
  | nil =>
    intro acc hacc _
    simp [validateBlockGasLoop, Nat.not_lt.mpr hacc]
  | cons p rest ih =>
    intro acc hacc hv
    obtain ⟨g, gv⟩ := p
    have hgv : gv = true := hv (g, gv) (List.mem_cons_self _ _)
    subst hgv
    unfold validateBlockGasLoop
    rw [if_neg (by simp)]
    by_cases hover : MaxBlockGas < acc + g
    · rw [if_pos hover]
      have hov2 : MaxBlockGas < acc + (((g, true) :: rest).map Prod.fst).sum := by
        simp only [List.map_cons, List.sum_cons]; omega
      rw [if_pos hov2]
    · rw [if_neg hover]
      have hle : acc + g ≤ MaxBlockGas := by omega
      rw [ih (acc + g) hle (fun p hp => hv p (List.mem_cons_of_mem _ hp))]
      simp [Nat.add_assoc]

end Doslink

namespace Doslink

/-- C4: every block assembled by `NewBlockTemplate` keeps the sum of
`gasUsed` over its included (non-coinbase) transactions at most
`MaxBlockGas`; a candidate whose gas would push the running sum over the
cap stops further inclusion (the loop breaks); and the gas-accumulation
loop of `ValidateBlock` returns `errOverBlockLimit` exactly on blocks
whose accumulated transaction gas exceeds `MaxBlockGas` (given that every
transaction validated `GasValid`, the loop's precondition for reaching
the gas check). -/
theorem block_gas_cap (cands : List Cand) (c : Cand) (rest : List Cand) (s : Nat)
    (hskip : c.utxoErr = false ∧ (c.valErr = false ∨ c.gasValid = true))
    (hover : MaxBlockGas < s + c.gasUsed) :
    (templateIncludedGas cands).sum ≤ MaxBlockGas ∧
      templateLoop s (c :: rest) = [] ∧
      (∀ txs : List (Nat × Bool), (∀ p ∈ txs, p.2 = true) →
        ((txs.map Prod.fst).sum ≤ MaxBlockGas →
          validateBlockGas txs = .ok (txs.map Prod.fst).sum) ∧
        (MaxBlockGas < (txs.map Prod.fst).sum →
          validateBlockGas txs = .error .overBlockLimit)) := by
  refine ⟨?_, ?_, ?_⟩
  · simpa [templateIncludedGas] using templateLoop_sum_le cands 0 (by norm_num)
  · unfold templateLoop
    rw [if_neg (by simp [hskip.1])]
    rw [if_neg (by rcases hskip.2 with h | h <;> simp [h])]
    rw [if_pos hover]
  · intro txs hv
    have h := validateBlockGasLoop_eq txs 0 (by norm_num) hv
    constructor
    · intro hle
      unfold validateBlockGas
      rw [h, if_neg (by omega)]
      norm_num
    · intro hgt
      unfold validateBlockGas
      rw [h, if_pos (by omega)]

/-- C4 witness: the theorem applied to a singleton pool and a candidate
of exactly `MaxBlockGas` gas arriving when one unit is already used. -/
theorem block_gas_cap_witness :
    (templateIncludedGas [⟨11, false, false, true, false⟩]).sum ≤ MaxBlockGas ∧
      templateLoop 1 [⟨10000000, false, false, true, false⟩] = [] ∧
      (∀ txs : List (Nat × Bool), (∀ p ∈ txs, p.2 = true) →
        ((txs.map Prod.fst).sum ≤ MaxBlockGas →
          validateBlockGas txs = .ok (txs.map Prod.fst).sum) ∧
        (MaxBlockGas < (txs.map Prod.fst).sum →
          validateBlockGas txs = .error .overBlockLimit)) :=
  block_gas_cap [⟨11, false, false, true, false⟩] ⟨10000000, false, false, true, false⟩
    [] 1 (by constructor <;> simp) (by norm_num [MaxBlockGas])

/-! ### Claim C9 — the OP_DEPOSIT / OP_WITHDRAW balance effects -/

theorem getBalance_aupdate (bal : List (Nat × Int)) (k : Nat) (v : Int) :
    getBalance (aupdate bal k v) k = v := by
  induction bal with
  | nil => simp [aupdate, getBalance, alookup]
  | cons p rest ih =>
    obtain ⟨k0, v0⟩ := p
    unfold aupdate
    by_cases hk : k0 = k
    · simp [hk, getBalance, alookup]
    · simpa [hk, getBalance, alookup] using ih

theorem getBalance_subBalance (bal : List (Nat × Int)) (a : Nat) (amt : Int) :
    getBalance (subBalance bal a amt) a = getBalance bal a - amt := by
  unfold subBalance; exact getBalance_aupdate ..

theorem getBalance_addBalance (bal : List (Nat × Int)) (a : Nat) (amt : Int) :
    getBalance (addBalance bal a amt) a = getBalance bal a + amt := by
  unfold addBalance; exact getBalance_aupdate ..

end Doslink

namespace Doslink

/-- C9: with the native asset in the VM context and a stack holding the
address, a zero vm-type and a zero version, `opWithdraw` fails with
`ErrInsufficientBalance` whenever the popped address's balance is below
the entry's amount (the error aborts the opcode, so no balance is
debited), and otherwise debits exactly the entry's amount; `opDeposit`
credits exactly the entry's amount. -/
theorem opWithdraw_opDeposit_balance (addr vt ver : List Nat) (rest : List (List Nat))
    (amount : Nat) (bal : List (Nat × Int))
    (hvt : bytesToNat vt = 0) (hver : bytesToNat ver = 0) :
    (getBalance bal (bytesToAddress addr) < (amount : Int) →
      opWithdraw ⟨nativeAssetBytes, amount, addr :: vt :: ver :: rest, bal⟩ =
        .error .insufficientBalance) ∧
    ((amount : Int) ≤ getBalance bal (bytesToAddress addr) →
      opWithdraw ⟨nativeAssetBytes, amount, addr :: vt :: ver :: rest, bal⟩ =
        .ok ⟨nativeAssetBytes, amount, [1] :: rest,
          subBalance bal (bytesToAddress addr) (Int.ofNat amount)⟩ ∧
      getBalance (subBalance bal (bytesToAddress addr) (Int.ofNat amount))
          (bytesToAddress addr) =
        getBalance bal (bytesToAddress addr) - amount) ∧
    (opDeposit ⟨nativeAssetBytes, amount, addr :: vt :: ver :: rest, bal⟩ =
        .ok ⟨nativeAssetBytes, amount, [1] :: rest,
          addBalance bal (bytesToAddress addr) (Int.ofNat amount)⟩ ∧
      getBalance (addBalance bal (bytesToAddress addr) (Int.ofNat amount))
          (bytesToAddress addr) =
        getBalance bal (bytesToAddress addr) + amount) := by
  refine ⟨?_, ?_, ?_⟩
  · intro hlt
    simp [opWithdraw, vmPop, vmPushBool, CanTransfer, hvt, hver, bind, Except.bind,
      Int.not_le.mpr hlt, pure, Except.pure]
  · intro hge
    refine ⟨?_, getBalance_subBalance ..⟩
    simp [opWithdraw, vmPop, vmPushBool, CanTransfer, hvt, hver, bind, Except.bind,
      hge, pure, Except.pure]
  · refine ⟨?_, getBalance_addBalance ..⟩
    simp [opDeposit, vmPop, vmPushBool, hvt, hver, bind, Except.bind, pure, Except.pure]

/-- C9 witness: the theorem applied to address bytes `[7]`, an entry
amount of 5 and a prior balance of 3 (insufficient, so the withdraw
branch fails and the deposit branch credits to 8). -/
theorem opWithdraw_opDeposit_balance_witness :
    (getBalance [(7, 3)] (bytesToAddress [7]) < ((5 : Nat) : Int) →
      opWithdraw ⟨nativeAssetBytes, 5, [[7], [], [], []], [(7, 3)]⟩ =
        .error .insufficientBalance) ∧
    (((5 : Nat) : Int) ≤ getBalance [(7, 3)] (bytesToAddress [7]) →
      opWithdraw ⟨nativeAssetBytes, 5, [[7], [], [], []], [(7, 3)]⟩ =
        .ok ⟨nativeAssetBytes, 5, [[1], []],
          subBalance [(7, 3)] (bytesToAddress [7]) (Int.ofNat 5)⟩ ∧
      getBalance (subBalance [(7, 3)] (bytesToAddress [7]) (Int.ofNat 5))
          (bytesToAddress [7]) =
        getBalance [(7, 3)] (bytesToAddress [7]) - 5) ∧
    (opDeposit ⟨nativeAssetBytes, 5, [[7], [], [], []], [(7, 3)]⟩ =
        .ok ⟨nativeAssetBytes, 5, [[1], []],
          addBalance [(7, 3)] (bytesToAddress [7]) (Int.ofNat 5)⟩ ∧
      getBalance (addBalance [(7, 3)] (bytesToAddress [7]) (Int.ofNat 5))
          (bytesToAddress [7]) =
        getBalance [(7, 3)] (bytesToAddress [7]) + 5) :=
  opWithdraw_opDeposit_balance [7] [] [] [[]] 5 [(7, 3)] (by decide) (by decide)

end Doslink

namespace Doslink

/-! ### Claim C10 — failed pre-checks leave GasValid false -/

/-- C10: if any of the `ValidateTx` transaction-level pre-checks fails —
version compatibility, zero serialized size, the time-range check, or the
standardness check — then `ValidateTx` returns an error together with the
untouched initial gas state, whose `GasValid` is false; such a
transaction is an outright rejection, never a gas-only one. -/
theorem validateTx_precheck_gas_invalid (ctx : Ctx) (fuel : Nat)
    (bal0 : List (Nat × Int)) (b : Block) (hb : ctx.block = some b)
    (hpre : (b.version = 1 ∧ ctx.tx.version ≠ 1) ∨ ctx.tx.serializedSize = 0 ∨
      checkTimeRange ctx.tx b ≠ none ∨ checkStandardTx ctx.tx ≠ none) :
    (ValidateTx ctx fuel bal0).1.gas.gasValid = false ∧
      (ValidateTx ctx fuel bal0).2 ≠ none ∧
      (ValidateTx ctx fuel bal0).1.gas = GasState.init := by
  simp only [ValidateTx, hb]
  by_cases h1 : b.version = 1 ∧ ctx.tx.version ≠ 1
  · simp [h1, GasState.init]
  · rw [if_neg h1]
    by_cases h2 : ctx.tx.serializedSize = 0
    · simp [h2, GasState.init]
    · rw [if_neg h2]
      cases h3 : checkTimeRange ctx.tx b with
      | some e => simp [GasState.init]
      | none =>
        cases h4 : checkStandardTx ctx.tx with
        | some e => simp [GasState.init]
        | none =>
          exfalso
          rcases hpre with h | h | h | h
          · exact h1 h
          · exact h2 h
          · exact h h3
          · exact h h4

/-- C10 witness: the theorem applied to a zero-size transaction. -/
theorem validateTx_precheck_gas_invalid_witness :
    (ValidateTx ctxPre 5 []).1.gas.gasValid = false ∧
      (ValidateTx ctxPre 5 []).2 ≠ none ∧
      (ValidateTx ctxPre 5 []).1.gas = GasState.init :=
  validateTx_precheck_gas_invalid ctxPre 5 [] ⟨1, 0, []⟩ rfl (Or.inr (Or.inl rfl))

end Doslink


namespace Doslink

/-! ### Claim C6 — the standardness closure -/

theorem checkStandardGasInputs_none_iff (tx : Tx) (ids : List Hash) :
    checkStandardGasInputs tx ids = none ↔ ∀ iid ∈ ids, standardGasInputOK tx iid := by
  induction ids with
  | nil => simp [checkStandardGasInputs]
  | cons iid rest ih =>
    unfold checkStandardGasInputs
    cases he : alookup tx.entries iid with
    | none =>
      simp only [he]
      constructor
      · intro h; exact absurd h (by simp)
      · intro h
        exfalso
        rcases h iid (List.mem_cons_self _ _) with
          ⟨so', args', d', osrc', ocp', oord', he', _, _⟩ | ⟨v', cp', wp', args', d', he', _⟩ <;>
          rw [he'] at he <;> exact Option.noConfusion he
    | some e =>
      cases e with
      | spend soid args d =>
        cases soid with
        | none =>
          simp only [he]
          constructor
          · intro h; exact absurd h (by simp)
          · intro h
            exfalso
            rcases h iid (List.mem_cons_self _ _) with
              ⟨so', args', d', osrc', ocp', oord', he', _, _⟩ | ⟨v', cp', wp', args', d', he', _⟩ <;>
              rw [he'] at he <;> simp at he
        | some so =>
          cases ho : alookup tx.entries so with
          | none =>
            simp only [he, ho]
            constructor
            · intro h; exact absurd h (by simp)
            · intro h
              exfalso
              rcases h iid (List.mem_cons_self _ _) with
                ⟨so', args', d', osrc', ocp', oord', he', ho', _⟩ | ⟨v', cp', wp', args', d', he', _⟩
              · rw [he'] at he
                simp only [Option.some.injEq, Entry.spend.injEq, Option.some.injEq] at he
                obtain ⟨rfl, -, -⟩ := he
                rw [ho'] at ho
                exact Option.noConfusion ho
              · rw [he'] at he; simp at he
          | some oe =>
            cases oe with
            | output osrc ocp oord =>
              by_cases hw : IsP2WScript ocp.code = true
              · simp only [he, ho, hw, if_true]
                rw [ih]
                constructor
                · intro h x hx
                  rcases List.mem_cons.mp hx with rfl | hx2
                  · exact Or.inl ⟨so, args, d, osrc, ocp, oord, he, ho, hw⟩
                  · exact h x hx2
                · intro h x hx; exact h x (List.mem_cons_of_mem _ hx)
              · simp only [he, ho, if_neg hw]
                constructor
                · intro h; exact absurd h (by simp)
                · intro h
                  exfalso
                  rcases h iid (List.mem_cons_self _ _) with
                    ⟨so', args', d', osrc', ocp', oord', he', ho', hw'⟩ |
                      ⟨v', cp', wp', args', d', he', _⟩
                  · rw [he'] at he
                    simp only [Option.some.injEq, Entry.spend.injEq, Option.some.injEq] at he
                    obtain ⟨rfl, -, -⟩ := he
                    rw [ho'] at ho
                    simp only [Option.some.injEq, Entry.output.injEq] at ho
                    obtain ⟨-, rfl, -⟩ := ho
                    exact hw hw'
                  · rw [he'] at he; simp at he
            | _ =>
              first
              | (simp only [he, ho]
                 constructor
                 · intro h; exact absurd h (by simp)
                 · intro h
                   exfalso
                   rcases h iid (List.mem_cons_self _ _) with
                     ⟨so', args', d', osrc', ocp', oord', he', ho', _⟩ |
                       ⟨v', cp', wp', args', d', he', _⟩
                   · rw [he'] at he
                     simp only [Option.some.injEq, Entry.spend.injEq, Option.some.injEq] at he
                     obtain ⟨rfl, -, -⟩ := he
                     rw [ho'] at ho
                     simp at ho
                   · rw [he'] at he; simp at he)
      | withdrawal v cp wp args d =>
        by_cases hw : IsP2WScript cp.code = true
        · simp only [he, hw, if_true]
          rw [ih]
          constructor
          · intro h x hx
            rcases List.mem_cons.mp hx with rfl | hx2
            · exact Or.inr ⟨v, cp, wp, args, d, he, hw⟩
            · exact h x hx2
          · intro h x hx; exact h x (List.mem_cons_of_mem _ hx)
        · simp only [he, if_neg hw]
          constructor
          · intro h; exact absurd h (by simp)
          · intro h
            exfalso
            rcases h iid (List.mem_cons_self _ _) with
              ⟨so', args', d', osrc', ocp', oord', he', _, _⟩ |
                ⟨v', cp', wp', args', d', he', hw'⟩
            · rw [he'] at he; simp at he
            · rw [he'] at he
              simp only [Option.some.injEq, Entry.withdrawal.injEq] at he
              obtain ⟨-, rfl, -, -, -⟩ := he
              exact hw hw'
      | _ =>
        first
        | (simp only [he]
           constructor
           · intro h; exact absurd h (by simp)
           · intro h
             exfalso
             rcases h iid (List.mem_cons_self _ _) with
               ⟨so', args', d', osrc', ocp', oord', he', _, _⟩ |
                 ⟨v', cp', wp', args', d', he', _⟩ <;>
               (rw [he'] at he; simp at he))

end Doslink

namespace Doslink

theorem checkStandardResults_none_iff (tx : Tx) (ids : List Hash) :
    checkStandardResults tx ids = none ↔ ∀ rid ∈ ids, standardResultOK tx rid := by
  induction ids with
  | nil => simp [checkStandardResults]
  | cons rid rest ih =>
    unfold checkStandardResults
    cases he : alookup tx.entries rid with
    | none =>
      simp only [he]
      constructor
      · intro h; exact absurd h (by simp)
      · intro h
        exfalso
        obtain ⟨e, he', -⟩ := h rid (List.mem_cons_self _ _)
        rw [he'] at he
        exact Option.noConfusion he
    | some e =>
      cases e with
      | output osrc ocp oord =>
        by_cases hb : osrc.value.assetId = NativeAssetID ∧ ¬IsP2WScript ocp.code = true
        · simp only [he, if_pos hb]
          constructor
          · intro h; exact absurd h (by simp)
          · intro h
            exfalso
            obtain ⟨e', he', hok⟩ := h rid (List.mem_cons_self _ _)
            rw [he'] at he
            simp only [Option.some.injEq] at he
            exact hb.2 (hok osrc ocp oord he hb.1)
        · simp only [he, if_neg hb]
          rw [ih]
          constructor
          · intro h x hx
            rcases List.mem_cons.mp hx with rfl | hx2
            · refine ⟨_, he, ?_⟩
              intro osrc' ocp' oord' heq hnat
              injection heq with h1 h2 h3
              subst h1; subst h2
              by_contra hnp
              exact hb ⟨hnat, hnp⟩
            · exact h x hx2
          · intro h x hx; exact h x (List.mem_cons_of_mem _ hx)
      | _ =>
        first
        | (simp only [he]
           rw [ih]
           constructor
           · intro h x hx
             rcases List.mem_cons.mp hx with rfl | hx2
             · exact ⟨_, he, by intro osrc' ocp' oord' heq hnat; exact absurd heq (by simp)⟩
             · exact h x hx2
           · intro h x hx; exact h x (List.mem_cons_of_mem _ hx))

/-- C6 (amended): a transaction passes `checkStandardTx` iff every gas
input is a Spend of an existing Output whose control program — or a
Withdrawal whose control program — satisfies `IsP2WScript` (P2WSH,
single TRUE/FAIL, or P2Contract), and every result id names an existing
entry which, when it is a native-asset Output, has an `IsP2WScript`
control program.  Op-deposit, op-withdraw and multi-instruction
unspendable shapes are *not* accepted, contrary to the claim. -/
theorem checkStandardTx_iff_p2w (tx : Tx) :
    checkStandardTx tx = none ↔
      ((∀ iid ∈ tx.gasInputIDs, standardGasInputOK tx iid) ∧
        (∀ rid ∈ tx.resultIds, standardResultOK tx rid)) := by
  unfold checkStandardTx
  cases hg : checkStandardGasInputs tx tx.gasInputIDs with
  | some er =>
    constructor
    · intro h; exact absurd h (by simp)
    · intro h
      exfalso
      have := (checkStandardGasInputs_none_iff tx tx.gasInputIDs).mpr h.1
      rw [this] at hg
      exact Option.noConfusion hg
  | none =>
    rw [checkStandardResults_none_iff]
    constructor
    · intro h
      exact ⟨(checkStandardGasInputs_none_iff tx tx.gasInputIDs).mp hg, h⟩
    · intro h; exact h.2

/-- C6 witness: the amended equivalence applied to the concrete
transaction `txOrphan` (accepted by the standardness check). -/
theorem checkStandardTx_iff_p2w_witness :
    checkStandardTx txOrphan = none ↔
      ((∀ iid ∈ txOrphan.gasInputIDs, standardGasInputOK txOrphan iid) ∧
        (∀ rid ∈ txOrphan.resultIds, standardResultOK txOrphan rid)) :=
  checkStandardTx_iff_p2w txOrphan

/-- C6 counterexample: `txDepositOut` has a single native-asset output
controlled by an op-deposit program; the classifier recognizes it
(`IsOpDeposit`), so the claim says the transaction passes
`checkStandardTx`, but the code rejects it with `ErrNotStandardTx`. -/
theorem checkStandardTx_rejects_recognized :
    ¬checkStandardTxClaim txDepositOut ∧
      checkStandardTx txDepositOut = some .notStandardTx ∧
      (∀ p ∈ nativeOutputProgs txDepositOut, recognizedByClassifier p.code = true) ∧
      IsOpDeposit depositProgBytes = true := by
  refine ⟨?_, by decide, by decide, by decide⟩
  intro h
  have h2 := h.mpr ⟨by decide, by decide⟩
  exact absurd h2 (by decide)

end Doslink

namespace Doslink

/-! ### Claim C5 — the Coinbase entry checks -/

theorem checkValidDest_no_oversize (ctx : Ctx) (eid : Hash) (dp : Nat) (st : VSt)
    (vd : ValueDestination) :
    (checkValidDest ctx eid dp st vd).2 ≠ some VErr.coinbaseArbitraryOversize ∧
      (checkValidDest ctx eid dp st vd).1 = st := by
  unfold checkValidDest
  repeat' split
  all_goals simp only []
  all_goals (try repeat' split)
  all_goals simp

/-- C5: on a Coinbase entry, `checkValid` fails with
`ErrWrongCoinbaseTransaction` unless the validated transaction is
`block.Transactions[0]`; given that, it fails with
`ErrWrongCoinbaseAsset` unless the witness destination's asset is the
native asset; given both, it fails with `ErrCoinbaseArbitraryOversize`
iff the arbitrary field exceeds 128 bytes; and on success the gas
state's `GasValid` is true unconditionally. -/
theorem coinbase_entry_checks (ctx : Ctx) (f : Nat) (entryID : Hash) (st : VSt)
    (arb : List Nat) (dest : ValueDestination) :
    ((ctx.block = none ∨ ∃ b, ctx.block = some b ∧ b.transactions.head? ≠ some ctx.tx.id) →
      checkValidBody ctx (f + 1) entryID st (.coinbase arb dest) =
        (st, some .wrongCoinbaseTransaction)) ∧
    (∀ b, ctx.block = some b → b.transactions.head? = some ctx.tx.id →
      (dest.value.assetId ≠ NativeAssetID →
        checkValidBody ctx (f + 1) entryID st (.coinbase arb dest) =
          (st, some .wrongCoinbaseAsset)) ∧
      (dest.value.assetId = NativeAssetID →
        ((checkValidBody ctx (f + 1) entryID st (.coinbase arb dest)).2 =
            some .coinbaseArbitraryOversize ↔
          CoinbaseArbitrarySizeLimit < arb.length))) ∧
    ((checkValidBody ctx (f + 1) entryID st (.coinbase arb dest)).2 = none →
      (checkValidBody ctx (f + 1) entryID st (.coinbase arb dest)).1.gas.gasValid = true) := by
  refine ⟨?_, ?_, ?_⟩
  · rintro (hb | ⟨b, hb, hne⟩)
    · simp only [checkValidBody_unfold, hb]
    · simp only [checkValidBody_unfold, hb]
      rw [if_pos hne]
  · intro b hb hhead
    constructor
    · intro hasset
      simp only [checkValidBody_unfold, hb]
      rw [if_neg (by simp [hhead]), if_pos hasset]
    · intro hasset
      simp only [checkValidBody_unfold, hb]
      rw [if_neg (by simp [hhead]), if_neg (by simp [hasset])]
      by_cases hlen : CoinbaseArbitrarySizeLimit < arb.length
      · rw [if_pos hlen]
        simp [hlen]
      · rw [if_neg hlen]
        simp only [hlen, iff_false]
        rcases hcd : checkValidDest ctx entryID 0 st dest with ⟨st1, r⟩
        have hno := (checkValidDest_no_oversize ctx entryID 0 st dest).1
        rw [hcd] at hno
        cases r with
        | none => simp
        | some er => simpa using hno
  · intro hnone
    rcases hb : ctx.block with _ | b
    · simp only [checkValidBody_unfold, hb] at hnone
      exact absurd hnone (by simp)
    · simp only [checkValidBody_unfold, hb] at hnone ⊢
      by_cases h1 : b.transactions.head? ≠ some ctx.tx.id
      · rw [if_pos h1] at hnone ⊢
        exact absurd hnone (by simp)
      · rw [if_neg h1] at hnone ⊢
        by_cases h2 : dest.value.assetId ≠ NativeAssetID
        · rw [if_pos h2] at hnone ⊢
          exact absurd hnone (by simp)
        · rw [if_neg h2] at hnone ⊢
          by_cases h3 : CoinbaseArbitrarySizeLimit < arb.length
          · rw [if_pos h3] at hnone ⊢
            exact absurd hnone (by simp)
          · rw [if_neg h3] at hnone ⊢
            rcases hcd : checkValidDest ctx entryID 0 st dest with ⟨st1, r⟩
            cases r with
            | none => simp_all
            | some er => simp_all

/-- C5 witness: the theorem applied with a nil block pointer — the
coinbase entry is rejected as a wrong coinbase transaction. -/
theorem coinbase_entry_checks_witness :
    checkValidBody ctxNoBlock (2 + 1) 0 stInit
        (.coinbase [] ⟨3, ⟨NativeAssetID, 5⟩, 0⟩) =
      (stInit, some .wrongCoinbaseTransaction) :=
  (coinbase_entry_checks ctxNoBlock 2 0 stInit [] ⟨3, ⟨NativeAssetID, 5⟩, 0⟩).1
    (Or.inl rfl)

end Doslink

namespace Doslink

/-! ### Claim C1 — conservation at the Mux and the gas surplus -/

theorem alookup_aupdate {α : Type} (p : List (Nat × α)) (k : Nat) (v : α) (k' : Nat) :
    alookup (aupdate p k v) k' = if k = k' then some v else alookup p k' := by
  induction p with
  | nil => by_cases h : k = k' <;> simp [aupdate, alookup, h]
  | cons q rest ih =>
    obtain ⟨k0, v0⟩ := q
    unfold aupdate
    by_cases h0 : k0 = k
    · subst h0
      by_cases h1 : k0 = k' <;> simp [alookup, h1]
    · rw [if_neg h0]
      by_cases h1 : k0 = k'
      · subst h1
        have : ¬k = k0 := fun h => h0 h.symm
        simp [alookup, this]
      · simp only [alookup, if_neg h1]
        exact ih

theorem alookup_mem {α : Type} (p : List (Nat × α)) (k : Nat) (v : α)
    (h : alookup p k = some v) : (k, v) ∈ p := by
  induction p with
  | nil => simp [alookup] at h
  | cons q rest ih =>
    obtain ⟨k0, v0⟩ := q
    unfold alookup at h
    by_cases h0 : k0 = k
    · rw [if_pos h0] at h
      injection h with h
      subst h0; subst h
      exact List.mem_cons_self _ _
    · rw [if_neg h0] at h
      exact List.mem_cons_of_mem _ (ih h)

theorem alookup_none_not_mem {α : Type} (p : List (Nat × α)) (k : Nat)
    (h : alookup p k = none) : ∀ v, (k, v) ∉ p := by
  induction p with
  | nil => simp
  | cons q rest ih =>
    obtain ⟨k0, v0⟩ := q
    unfold alookup at h
    by_cases h0 : k0 = k
    · rw [if_pos h0] at h; exact Option.noConfusion h
    · rw [if_neg h0] at h
      intro v hv
      rcases List.mem_cons.mp hv with heq | hmem
      · injection heq with h1 h2; exact h0 h1.symm
      · exact ih h v hmem

theorem mem_aupdate {α : Type} (p : List (Nat × α)) (k : Nat) (v : α) (a : Nat) (w : α)
    (h : (a, w) ∈ aupdate p k v) : (a, w) ∈ p ∨ (a = k ∧ w = v) := by
  induction p with
  | nil =>
    simp [aupdate] at h
    exact Or.inr h
  | cons q rest ih =>
    obtain ⟨k0, v0⟩ := q
    unfold aupdate at h
    by_cases h0 : k0 = k
    · rw [if_pos h0] at h
      rcases List.mem_cons.mp h with heq | hmem
      · injection heq with h1 h2
        subst h0; subst h1
        exact Or.inr ⟨rfl, h2⟩
      · exact Or.inl (List.mem_cons_of_mem _ hmem)
    · rw [if_neg h0] at h
      rcases List.mem_cons.mp h with heq | hmem
      · exact Or.inl (heq ▸ List.mem_cons_self _ _)
      · rcases ih hmem with hl | hr
        · exact Or.inl (List.mem_cons_of_mem _ hl)
        · exact Or.inr hr

theorem mem_keys_aupdate {α : Type} (p : List (Nat × α)) (k : Nat) (v : α) (x : Nat)
    (h : x ∈ (aupdate p k v).map Prod.fst) : x ∈ p.map Prod.fst ∨ x = k := by
  induction p with
  | nil => simpa [aupdate] using h
  | cons q rest ih =>
    obtain ⟨k0, v0⟩ := q
    unfold aupdate at h
    by_cases h0 : k0 = k
    · rw [if_pos h0] at h
      simp only [List.map_cons, List.mem_cons] at h
      rcases h with h | h
      · exact Or.inl (by simp [h])
      · exact Or.inl (by simp [h])
    · rw [if_neg h0] at h
      simp only [List.map_cons, List.mem_cons] at h
      rcases h with h | h
      · exact Or.inl (by simp [h])
      · rcases ih h with hl | hr
        · exact Or.inl (by simp; right; simpa using hl)
        · exact Or.inr hr

theorem aupdate_nodup {α : Type} (p : List (Nat × α)) (k : Nat) (v : α)
    (h : (p.map Prod.fst).Nodup) : ((aupdate p k v).map Prod.fst).Nodup := by
  induction p with
  | nil => simp [aupdate]
  | cons q rest ih =>
    obtain ⟨k0, v0⟩ := q
    simp only [List.map_cons, List.nodup_cons] at h
    unfold aupdate
    by_cases h0 : k0 = k
    · rw [if_pos h0]
      simp only [List.map_cons, List.nodup_cons]
      exact h
    · rw [if_neg h0]
      simp only [List.map_cons, List.nodup_cons]
      refine ⟨?_, ih h.2⟩
      intro hmem
      rcases mem_keys_aupdate rest k v k0 hmem with hl | hr
      · exact h.1 hl
      · exact h0 hr

end Doslink


namespace Doslink

theorem muxParitySources_valueAt (sources : List ValueSource) :
    ∀ p p', muxParitySources p sources = .ok p' →
      ∀ aid, valueAt p' aid = valueAt p aid + srcSum sources aid := by
  induction sources with
  | nil =>
    intro p p' h aid
    simp only [muxParitySources] at h
    injection h with h
    subst h
    simp [srcSum]
  | cons src rest ih =>
    intro p p' h aid
    unfold muxParitySources at h
    by_cases hov : 2 ^ 63 - 1 < src.value.amount
    · rw [if_pos hov] at h; exact Except.noConfusion h
    · rw [if_neg hov] at h
      cases ha : addInt64 ((alookup p src.value.assetId).getD 0) (Int.ofNat src.value.amount) with
      | none => rw [ha] at h; exact Except.noConfusion h
      | some sum =>
        rw [ha] at h
        have hsum : sum = valueAt p src.value.assetId + Int.ofNat src.value.amount := by
          unfold addInt64 at ha
          split_ifs at ha
          injection ha with ha
          exact ha.symm
        simp only [Int.ofNat_eq_natCast] at hsum
        have hrec := ih _ _ h aid
        rw [hrec]
        by_cases haid : src.value.assetId = aid
        · subst haid
          have hup : valueAt (aupdate p src.value.assetId sum) src.value.assetId = sum := by
            unfold valueAt
            rw [alookup_aupdate, if_pos rfl]
            rfl
          rw [hup]
          simp [srcSum]
          omega
        · have hup : valueAt (aupdate p src.value.assetId sum) aid = valueAt p aid := by
            unfold valueAt
            rw [alookup_aupdate, if_neg haid]
          rw [hup]
          simp [srcSum, haid]

theorem muxParityDests_valueAt (dests : List ValueDestination) :
    ∀ p p', muxParityDests p dests = .ok p' →
      ∀ aid, valueAt p' aid = valueAt p aid - dstSum dests aid := by
  induction dests with
  | nil =>
    intro p p' h aid
    simp only [muxParityDests] at h
    injection h with h
    subst h
    simp [dstSum]
  | cons dest rest ih =>
    intro p p' h aid
    unfold muxParityDests at h
    cases hl : alookup p dest.value.assetId with
    | none => simp only [hl] at h; exact Except.noConfusion h
    | some sum =>
      simp only [hl] at h
      by_cases hov : 2 ^ 63 - 1 < dest.value.amount
      · rw [if_pos hov] at h; exact Except.noConfusion h
      · rw [if_neg hov] at h
        cases hs : subInt64 sum (Int.ofNat dest.value.amount) with
        | none => rw [hs] at h; exact Except.noConfusion h
        | some d =>
          rw [hs] at h
          have hd : d = sum - Int.ofNat dest.value.amount := by
            unfold subInt64 at hs
            split_ifs at hs
            injection hs with hs
            exact hs.symm
          simp only [Int.ofNat_eq_natCast] at hd
          have hval : valueAt p dest.value.assetId = sum := by
            unfold valueAt
            rw [hl]
            rfl
          have hrec := ih _ _ h aid
          rw [hrec]
          by_cases haid : dest.value.assetId = aid
          · subst haid
            have hup : valueAt (aupdate p dest.value.assetId d) dest.value.assetId = d := by
              unfold valueAt
              rw [alookup_aupdate, if_pos rfl]
              rfl
            rw [hup]
            simp [dstSum]
            omega
          · have hup : valueAt (aupdate p dest.value.assetId d) aid = valueAt p aid := by
              unfold valueAt
              rw [alookup_aupdate, if_neg haid]
            rw [hup]
            simp [dstSum, haid]

theorem muxParitySources_nodup (sources : List ValueSource) :
    ∀ p p', muxParitySources p sources = .ok p' →
      (p.map Prod.fst).Nodup → (p'.map Prod.fst).Nodup := by
  induction sources with
  | nil =>
    intro p p' h hn
    simp only [muxParitySources] at h
    injection h with h
    subst h
    exact hn
  | cons src rest ih =>
    intro p p' h hn
    unfold muxParitySources at h
    by_cases hov : 2 ^ 63 - 1 < src.value.amount
    · rw [if_pos hov] at h; exact Except.noConfusion h
    · rw [if_neg hov] at h
      cases ha : addInt64 ((alookup p src.value.assetId).getD 0) (Int.ofNat src.value.amount) with
      | none => rw [ha] at h; exact Except.noConfusion h
      | some sum =>
        rw [ha] at h
        exact ih _ _ h (aupdate_nodup _ _ _ hn)

theorem muxParityDests_nodup (dests : List ValueDestination) :
    ∀ p p', muxParityDests p dests = .ok p' →
      (p.map Prod.fst).Nodup → (p'.map Prod.fst).Nodup := by
  induction dests with
  | nil =>
    intro p p' h hn
    simp only [muxParityDests] at h
    injection h with h
    subst h
    exact hn
  | cons dest rest ih =>
    intro p p' h hn
    unfold muxParityDests at h
    cases hl : alookup p dest.value.assetId with
    | none => simp only [hl] at h; exact Except.noConfusion h
    | some sum =>
      simp only [hl] at h
      by_cases hov : 2 ^ 63 - 1 < dest.value.amount
      · rw [if_pos hov] at h; exact Except.noConfusion h
      · rw [if_neg hov] at h
        cases hs : subInt64 sum (Int.ofNat dest.value.amount) with
        | none => rw [hs] at h; exact Except.noConfusion h
        | some d =>
          rw [hs] at h
          exact ih _ _ h (aupdate_nodup _ _ _ hn)

theorem mem_alookup_of_nodup {α : Type} (p : List (Nat × α)) (k : Nat) (v : α)
    (hn : (p.map Prod.fst).Nodup) (h : (k, v) ∈ p) : alookup p k = some v := by
  induction p with
  | nil => simp at h
  | cons q rest ih =>
    obtain ⟨k0, v0⟩ := q
    simp only [List.map_cons, List.nodup_cons] at hn
    rcases List.mem_cons.mp h with heq | hmem
    · injection heq with h1 h2
      subst h1; subst h2
      simp [alookup]
    · unfold alookup
      by_cases h0 : k0 = k
      · exfalso
        subst h0
        exact hn.1 (by simpa using List.mem_map_of_mem Prod.fst hmem)
      · rw [if_neg h0]
        exact ih hn.2 hmem

end Doslink

namespace Doslink

theorem setGas_ok (g : GasState) (v t : Int) (h0 : 0 ≤ v) (ht : inInt64 t) :
    (g.setGas v t).2 = none ∧ (g.setGas v t).1.assetValue = v.toNat := by
  unfold GasState.setGas
  rw [if_neg (by omega)]
  have hdiv : divInt64 v VMGasRate = some (Int.tdiv v VMGasRate) := by
    unfold divInt64
    rw [if_neg (by norm_num [VMGasRate])]
    rw [if_neg (by rintro ⟨h1, h2⟩; norm_num [VMGasRate] at h2)]
  rw [hdiv]
  have hmul : mulInt64 t StorageGasRate = some (t * StorageGasRate) := by
    unfold mulInt64
    rw [if_pos (by unfold StorageGasRate; simpa using ht)]
  rw [hmul]
  simp

theorem setGas_neg (g : GasState) (v t : Int) (hv : v < 0) :
    g.setGas v t = (g, some .gasCalculate) := by
  unfold GasState.setGas
  rw [if_pos hv]

theorem muxApplyParity_ok_zero (p : List (Nat × Int)) :
    ∀ g t, (muxApplyParity g t p).2 = none →
      ∀ a v, (a, v) ∈ p → a ≠ NativeAssetID → v = 0 := by
  induction p with
  | nil => intro g t _ a v hmem; simp at hmem
  | cons q rest ih =>
    obtain ⟨a0, v0⟩ := q
    intro g t h a v hmem hne
    unfold muxApplyParity at h
    by_cases ha0 : a0 = NativeAssetID
    · rw [if_pos ha0] at h
      rcases hsg : GasState.setGas g v0 t with ⟨g1, r⟩
      rw [hsg] at h
      cases r with
      | some er => simp at h
      | none =>
        rcases List.mem_cons.mp hmem with heq | hmem2
        · injection heq with h1 h2
          exact absurd (h1.trans ha0) hne
        · exact ih g1 t (by simpa using h) a v hmem2 hne
    · rw [if_neg ha0] at h
      by_cases hv0 : v0 ≠ 0
      · rw [if_pos hv0] at h
        simp at h
      · rw [if_neg hv0] at h
        rcases List.mem_cons.mp hmem with heq | hmem2
        · injection heq with h1 h2
          subst h2
          simpa using hv0
        · exact ih g t h a v hmem2 hne

theorem muxApplyParity_first_native (p : List (Nat × Int)) :
    ∀ g t v, alookup p NativeAssetID = some v → v < 0 →
      (muxApplyParity g t p).2 ≠ none := by
  induction p with
  | nil => intro g t v hla; simp [alookup] at hla
  | cons q rest ih =>
    obtain ⟨a0, v0⟩ := q
    intro g t v hla hneg
    unfold alookup at hla
    unfold muxApplyParity
    by_cases ha0 : a0 = NativeAssetID
    · rw [if_pos ha0] at hla
      injection hla with hla
      subst hla
      rw [if_pos ha0, setGas_neg g v0 t hneg]
      simp
    · rw [if_neg ha0] at hla
      rw [if_neg ha0]
      by_cases hv0 : v0 ≠ 0
      · rw [if_pos hv0]; simp
      · rw [if_neg hv0]
        exact ih g t v hla hneg

theorem muxApplyParity_preserve_assetValue (p : List (Nat × Int)) :
    ∀ g t, (∀ a v, (a, v) ∈ p → a ≠ NativeAssetID) →
      (muxApplyParity g t p).2 = none →
      (muxApplyParity g t p).1.assetValue = g.assetValue := by
  induction p with
  | nil => intro g t _ _; simp [muxApplyParity]
  | cons q rest ih =>
    obtain ⟨a0, v0⟩ := q
    intro g t hnn h
    have ha0 : a0 ≠ NativeAssetID := hnn a0 v0 (List.mem_cons_self _ _)
    unfold muxApplyParity at h ⊢
    rw [if_neg ha0] at h ⊢
    by_cases hv0 : v0 ≠ 0
    · rw [if_pos hv0] at h; simp at h
    · rw [if_neg hv0] at h ⊢
      exact ih g t (fun a v hm => hnn a v (List.mem_cons_of_mem _ hm)) h

theorem muxApplyParity_native_assetValue (p : List (Nat × Int)) :
    ∀ g t, (p.map Prod.fst).Nodup → inInt64 t →
      (muxApplyParity g t p).2 = none →
      ∀ v, alookup p NativeAssetID = some v →
        0 ≤ v ∧ (muxApplyParity g t p).1.assetValue = v.toNat := by
  induction p with
  | nil => intro g t _ _ _ v hla; simp [alookup] at hla
  | cons q rest ih =>
    obtain ⟨a0, v0⟩ := q
    intro g t hn ht h v hla
    simp only [List.map_cons, List.nodup_cons] at hn
    unfold alookup at hla
    by_cases ha0 : a0 = NativeAssetID
    · rw [if_pos ha0] at hla
      injection hla with hla
      subst hla
      unfold muxApplyParity at h ⊢
      rw [if_pos ha0] at h ⊢
      by_cases hneg : v0 < 0
      · rw [setGas_neg g v0 t hneg] at h
        simp at h
      · push_neg at hneg
        constructor
        · exact hneg
        · obtain ⟨hok, hav⟩ := setGas_ok g v0 t hneg ht
          rcases hsg : GasState.setGas g v0 t with ⟨g1, r⟩
          rw [hsg] at h hok hav
          simp only at hok hav
          subst hok
          have hrest : ∀ a w, (a, w) ∈ rest → a ≠ NativeAssetID := by
            intro a w hm ha
            subst ha
            subst ha0
            exact hn.1 (by simpa using List.mem_map_of_mem Prod.fst hm)
          have hpres := muxApplyParity_preserve_assetValue rest g1 t hrest (by simpa using h)
          simpa [hav] using hpres
    · rw [if_neg ha0] at hla
      unfold muxApplyParity at h ⊢
      rw [if_neg ha0] at h ⊢
      by_cases hv0 : v0 ≠ 0
      · rw [if_pos hv0] at h; simp at h
      · rw [if_neg hv0] at h ⊢
        exact ih g t hn.2 ht h v hla

theorem muxApplyParity_unbalanced (p : List (Nat × Int)) :
    ∀ g t, inInt64 t →
      (∀ a v, (a, v) ∈ p → a = NativeAssetID → 0 ≤ v) →
      (∃ a v, (a, v) ∈ p ∧ a ≠ NativeAssetID ∧ v ≠ 0) →
      (muxApplyParity g t p).2 = some .unbalanced := by
  induction p with
  | nil => intro g t _ _ hex; simp at hex
  | cons q rest ih =>
    obtain ⟨a0, v0⟩ := q
    intro g t ht hnat hex
    unfold muxApplyParity
    by_cases ha0 : a0 = NativeAssetID
    · rw [if_pos ha0]
      have h0 : 0 ≤ v0 := hnat a0 v0 (List.mem_cons_self _ _) ha0
      obtain ⟨hok, -⟩ := setGas_ok g v0 t h0 ht
      rcases hsg : GasState.setGas g v0 t with ⟨g1, r⟩
      rw [hsg] at hok
      simp only at hok
      subst hok
      have hex2 : ∃ a v, (a, v) ∈ rest ∧ a ≠ NativeAssetID ∧ v ≠ 0 := by
        obtain ⟨a, v, hmem, hne, hnz⟩ := hex
        rcases List.mem_cons.mp hmem with heq | hmem2
        · injection heq with h1 h2
          exact absurd (h1.trans ha0) hne
        · exact ⟨a, v, hmem2, hne, hnz⟩
      exact ih g1 t ht (fun a v hm => hnat a v (List.mem_cons_of_mem _ hm)) hex2
    · rw [if_neg ha0]
      by_cases hv0 : v0 ≠ 0
      · rw [if_pos hv0]
      · rw [if_neg hv0]
        push_neg at hv0
        have hex2 : ∃ a v, (a, v) ∈ rest ∧ a ≠ NativeAssetID ∧ v ≠ 0 := by
          obtain ⟨a, v, hmem, hne, hnz⟩ := hex
          rcases List.mem_cons.mp hmem with heq | hmem2
          · injection heq with h1 h2
            subst h2; subst hv0
            exact absurd rfl hnz
          · exact ⟨a, v, hmem2, hne, hnz⟩
        exact ih g t ht (fun a v hm => hnat a v (List.mem_cons_of_mem _ hm)) hex2

end Doslink

namespace Doslink

/-- C1: for a Mux entry whose asset-parity phases succeed (producing the
first-insertion-ordered parity map `p2`), (a) `setGas` fails with
`ErrGasCalculate` on any negative surplus; (b) if the parity loop
succeeds then every non-native asset's source sum equals its destination
sum; (c) if some non-native asset is unbalanced while the native surplus
is nonnegative, the loop fails with `ErrUnbalanced` (when the native
surplus is also negative, Go's unspecified map order chooses between
`ErrUnbalanced` and `ErrGasCalculate`, hence the sign hypothesis); and
(d) on success the native surplus — necessarily nonnegative — is stored
by `setGas` as the gas paid (`AssetValue`). -/
theorem mux_conservation_gas (sources : List ValueSource) (dests : List ValueDestination)
    (g : GasState) (txSize : Int) (p p2 : List (Nat × Int))
    (hp : muxParitySources [] sources = .ok p)
    (hd : muxParityDests p dests = .ok p2)
    (ht : inInt64 txSize) :
    (∀ v : Int, v < 0 → GasState.setGas g v txSize = (g, some .gasCalculate)) ∧
    ((muxApplyParity g txSize p2).2 = none →
      ∀ aid, aid ≠ NativeAssetID → srcSum sources aid = dstSum dests aid) ∧
    (0 ≤ srcSum sources NativeAssetID - dstSum dests NativeAssetID →
      (∃ aid, aid ≠ NativeAssetID ∧ srcSum sources aid ≠ dstSum dests aid) →
      (muxApplyParity g txSize p2).2 = some .unbalanced) ∧
    ((muxApplyParity g txSize p2).2 = none →
      ∀ v, alookup p2 NativeAssetID = some v →
        0 ≤ v ∧ v = srcSum sources NativeAssetID - dstSum dests NativeAssetID ∧
        (muxApplyParity g txSize p2).1.assetValue = v.toNat) := by
  have hv2 : ∀ aid, valueAt p2 aid = srcSum sources aid - dstSum dests aid := by
    intro aid
    rw [muxParityDests_valueAt dests p p2 hd aid,
      muxParitySources_valueAt sources [] p hp aid]
    simp [valueAt, alookup]
  have hnodup : (p2.map Prod.fst).Nodup := by
    refine muxParityDests_nodup dests p p2 hd ?_
    exact muxParitySources_nodup sources [] p hp (by simp)
  refine ⟨fun v hv => setGas_neg g v txSize hv, ?_, ?_, ?_⟩
  · intro h aid hne
    cases hla : alookup p2 aid with
    | none =>
      have := hv2 aid
      rw [valueAt, hla] at this
      simp only [Option.getD_none] at this
      omega
    | some v =>
      have hz := muxApplyParity_ok_zero p2 g txSize h aid v (alookup_mem _ _ _ hla) hne
      have := hv2 aid
      rw [valueAt, hla] at this
      simp only [Option.getD_some] at this
      omega
  · intro hnat hex
    apply muxApplyParity_unbalanced p2 g txSize ht
    · intro a v hmem ha
      subst ha
      have hla := mem_alookup_of_nodup p2 _ v hnodup hmem
      have := hv2 NativeAssetID
      rw [valueAt, hla] at this
      simp only [Option.getD_some] at this
      omega
    · obtain ⟨aid, hne, hsd⟩ := hex
      cases hla : alookup p2 aid with
      | none =>
        exfalso
        have := hv2 aid
        rw [valueAt, hla] at this
        simp only [Option.getD_none] at this
        omega
      | some v =>
        refine ⟨aid, v, alookup_mem _ _ _ hla, hne, ?_⟩
        have := hv2 aid
        rw [valueAt, hla] at this
        simp only [Option.getD_some] at this
        omega
  · intro h v hla
    obtain ⟨h0, hav⟩ := muxApplyParity_native_assetValue p2 g txSize hnodup ht h v hla
    have := hv2 NativeAssetID
    rw [valueAt, hla] at this
    simp only [Option.getD_some] at this
    exact ⟨h0, this, hav⟩

/-- C1 witness: the theorem applied to a mux with one native source of 5
and one native destination of 3 (surplus 2, storage gas 1). -/
theorem mux_conservation_gas_witness :
    (∀ v : Int, v < 0 →
      GasState.setGas GasState.init v 1 = (GasState.init, some .gasCalculate)) ∧
    ((muxApplyParity GasState.init 1 [(NativeAssetID, 2)]).2 = none →
      ∀ aid, aid ≠ NativeAssetID →
        srcSum [⟨1, ⟨NativeAssetID, 5⟩, 0⟩] aid = dstSum [⟨2, ⟨NativeAssetID, 3⟩, 0⟩] aid) ∧
    (0 ≤ srcSum [⟨1, ⟨NativeAssetID, 5⟩, 0⟩] NativeAssetID -
        dstSum [⟨2, ⟨NativeAssetID, 3⟩, 0⟩] NativeAssetID →
      (∃ aid, aid ≠ NativeAssetID ∧
        srcSum [⟨1, ⟨NativeAssetID, 5⟩, 0⟩] aid ≠ dstSum [⟨2, ⟨NativeAssetID, 3⟩, 0⟩] aid) →
      (muxApplyParity GasState.init 1 [(NativeAssetID, 2)]).2 = some .unbalanced) ∧
    ((muxApplyParity GasState.init 1 [(NativeAssetID, 2)]).2 = none →
      ∀ v, alookup [(NativeAssetID, 2)] NativeAssetID = some v →
        0 ≤ v ∧ v = srcSum [⟨1, ⟨NativeAssetID, 5⟩, 0⟩] NativeAssetID -
            dstSum [⟨2, ⟨NativeAssetID, 3⟩, 0⟩] NativeAssetID ∧
          (muxApplyParity GasState.init 1 [(NativeAssetID, 2)]).1.assetValue = v.toNat) :=
  mux_conservation_gas [⟨1, ⟨NativeAssetID, 5⟩, 0⟩] [⟨2, ⟨NativeAssetID, 3⟩, 0⟩]
    GasState.init 1 [(NativeAssetID, 5)] [(NativeAssetID, 2)]
    (by rfl) (by rfl) (by decide)

end Doslink



namespace Doslink

/-! ### Claim C2 — reference symmetry -/

theorem checkValidDest_ok_symmetric (ctx : Ctx) (eid : Hash) (dp : Nat) (st : VSt)
    (vd : ValueDestination) (h : (checkValidDest ctx eid dp st vd).2 = none) :
    destSymmetric ctx.tx eid dp vd := by
  unfold checkValidDest at h
  cases he : alookup ctx.tx.entries vd.ref with
  | none => simp [he] at h
  | some e =>
    simp only [he] at h
    refine ⟨e, he, ?_⟩
    cases e with
    | output src cp ord =>
      by_cases hp : vd.position ≠ 0
      · simp [hp] at h
      · push_neg at hp
        simp only [hp, ne_eq, not_true_eq_false, if_false, ite_false] at h
        split_ifs at h with h1 h2 h3
        · exact ⟨src, by simp [entrySrcAt, hp], h1, h2, h3⟩
        all_goals simp at h
    | retirement src ord =>
      by_cases hp : vd.position ≠ 0
      · simp [hp] at h
      · push_neg at hp
        simp only [hp, ne_eq, not_true_eq_false, if_false, ite_false] at h
        split_ifs at h with h1 h2 h3
        · exact ⟨src, by simp [entrySrcAt, hp], h1, h2, h3⟩
        all_goals simp at h
    | deposit src cp =>
      by_cases hp : vd.position ≠ 0
      · simp [hp] at h
      · push_neg at hp
        simp only [hp, ne_eq, not_true_eq_false, if_false, ite_false] at h
        split_ifs at h with h1 h2 h3
        · exact ⟨src, by simp [entrySrcAt, hp], h1, h2, h3⟩
        all_goals simp at h
    | mux srcs prog dests =>
      cases hm : srcs.get? vd.position with
      | none =>
        simp only [hm] at h
        simp at h
      | some src =>
        simp only [hm] at h
        split_ifs at h with h1 h2 h3
        · push_neg at h1 h2 h3
          refine ⟨src, ?_, h1, h2, h3⟩
          simp only [entrySrcAt]
          exact hm
        all_goals simp at h
    | txHeader v r => simp at h
    | issuance a b c d2 e2 => simp at h
    | spend a b c => simp at h
    | coinbase a b => simp at h
    | creation a b c d2 e2 => simp at h
    | call a b c d2 e2 f2 => simp at h
    | contract a b c d2 e2 f2 => simp at h
    | withdrawal a b c d2 e2 => simp at h

end Doslink

namespace Doslink

theorem checkValidSrc_ok_symmetric (ctx : Ctx) (f : Nat) (eid : Hash) (sp : Nat) (st : VSt)
    (vsrc : ValueSource) (h : (checkValidSrc ctx f eid sp st vsrc).2 = none) :
    sourceSymmetric ctx.tx eid sp vsrc := by
  cases f with
  | zero => simp [checkValidSrc_unfold] at h
  | succ f =>
    simp only [checkValidSrc_unfold] at h
    cases he : alookup ctx.tx.entries vsrc.ref with
    | none => simp [he] at h
    | some e =>
      simp only [he] at h
      rcases hcv : checkValid ctx f vsrc.ref st e with ⟨st1, r⟩
      rw [hcv] at h
      cases r with
      | some er => simp at h
      | none =>
        refine ⟨e, he, ?_⟩
        cases e with
        | coinbase a d =>
          by_cases hp : vsrc.position ≠ 0
          · simp [hp] at h
          · push_neg at hp
            simp only [hp, ne_eq, not_true_eq_false, if_false, ite_false] at h
            split_ifs at h with h1 h2 h3
            · exact ⟨d, by simp [entryDestAt, hp], h1, h2, h3⟩
            all_goals simp at h
        | issuance a b c args d =>
          by_cases hp : vsrc.position ≠ 0
          · simp [hp] at h
          · push_neg at hp
            simp only [hp, ne_eq, not_true_eq_false, if_false, ite_false] at h
            split_ifs at h with h1 h2 h3
            · exact ⟨d, by simp [entryDestAt, hp], h1, h2, h3⟩
            all_goals simp at h
        | spend a b d =>
          by_cases hp : vsrc.position ≠ 0
          · simp [hp] at h
          · push_neg at hp
            simp only [hp, ne_eq, not_true_eq_false, if_false, ite_false] at h
            split_ifs at h with h1 h2 h3
            · exact ⟨d, by simp [entryDestAt, hp], h1, h2, h3⟩
            all_goals simp at h
        | creation a b c args d =>
          by_cases hp : vsrc.position ≠ 0
          · simp [hp] at h
          · push_neg at hp
            simp only [hp, ne_eq, not_true_eq_false, if_false, ite_false] at h
            split_ifs at h with h1 h2 h3
            · exact ⟨d, by simp [entryDestAt, hp], h1, h2, h3⟩
            all_goals simp at h
        | call a b c c2 args d =>
          by_cases hp : vsrc.position ≠ 0
          · simp [hp] at h
          · push_neg at hp
            simp only [hp, ne_eq, not_true_eq_false, if_false, ite_false] at h
            split_ifs at h with h1 h2 h3
            · exact ⟨d, by simp [entryDestAt, hp], h1, h2, h3⟩
            all_goals simp at h
        | contract a b c c2 args d =>
          by_cases hp : vsrc.position ≠ 0
          · simp [hp] at h
          · push_neg at hp
            simp only [hp, ne_eq, not_true_eq_false, if_false, ite_false] at h
            split_ifs at h with h1 h2 h3
            · exact ⟨d, by simp [entryDestAt, hp], h1, h2, h3⟩
            all_goals simp at h
        | withdrawal a b c args d =>
          by_cases hp : vsrc.position ≠ 0
          · simp [hp] at h
          · push_neg at hp
            simp only [hp, ne_eq, not_true_eq_false, if_false, ite_false] at h
            split_ifs at h with h1 h2 h3
            · exact ⟨d, by simp [entryDestAt, hp], h1, h2, h3⟩
            all_goals simp at h
        | mux srcs prog dests =>
          cases hm : dests.get? vsrc.position with
          | none =>
            simp only [hm] at h
            simp at h
          | some d =>
            simp only [hm] at h
            split_ifs at h with h1 h2 h3
            · push_neg at h1 h2 h3
              refine ⟨d, ?_, h1, h2, h3⟩
              simp only [entryDestAt]
              exact hm
            all_goals simp at h
        | txHeader v r2 => simp at h
        | output a b c => simp at h
        | retirement a b => simp at h
        | deposit a b => simp at h

end Doslink

namespace Doslink

theorem checkValidDest_mismatch (ctx : Ctx) (eid : Hash) (dp : Nat) (st : VSt)
    (vd : ValueDestination) (F : Entry) (s : ValueSource)
    (he : alookup ctx.tx.entries vd.ref = some F)
    (hs : entrySrcAt F vd.position = some s)
    (hviol : ¬(s.ref = eid ∧ s.position = dp ∧ s.value = vd.value)) :
    (checkValidDest ctx eid dp st vd).2 = some .mismatchedReference ∨
    (checkValidDest ctx eid dp st vd).2 = some .mismatchedPosition ∨
    (checkValidDest ctx eid dp st vd).2 = some .mismatchedValue := by
  unfold checkValidDest
  simp only [he]
  cases F with
  | output src cp ord =>
    simp only [entrySrcAt] at hs
    by_cases hp : vd.position = 0
    · rw [if_pos hp] at hs
      injection hs with hs
      subst hs
      simp only [hp, ne_eq, not_true_eq_false, if_false, ite_false]
      split_ifs with h1 h2 h3
      · exact absurd ⟨h1, h2, h3⟩ hviol
      all_goals simp
    · rw [if_neg hp] at hs; exact Option.noConfusion hs
  | retirement src ord =>
    simp only [entrySrcAt] at hs
    by_cases hp : vd.position = 0
    · rw [if_pos hp] at hs
      injection hs with hs
      subst hs
      simp only [hp, ne_eq, not_true_eq_false, if_false, ite_false]
      split_ifs with h1 h2 h3
      · exact absurd ⟨h1, h2, h3⟩ hviol
      all_goals simp
    · rw [if_neg hp] at hs; exact Option.noConfusion hs
  | deposit src cp =>
    simp only [entrySrcAt] at hs
    by_cases hp : vd.position = 0
    · rw [if_pos hp] at hs
      injection hs with hs
      subst hs
      simp only [hp, ne_eq, not_true_eq_false, if_false, ite_false]
      split_ifs with h1 h2 h3
      · exact absurd ⟨h1, h2, h3⟩ hviol
      all_goals simp
    · rw [if_neg hp] at hs; exact Option.noConfusion hs
  | mux srcs prog dests =>
    simp only [entrySrcAt] at hs
    simp only [hs]
    split_ifs with h1 h2 h3
    · simp
    · simp
    · simp
    · push_neg at h1 h2 h3
      exact absurd ⟨h1, h2, h3⟩ hviol
  | txHeader v r2 => simp [entrySrcAt] at hs
  | issuance a b c d2 e2 => simp [entrySrcAt] at hs
  | spend a b c => simp [entrySrcAt] at hs
  | coinbase a b => simp [entrySrcAt] at hs
  | creation a b c d2 e2 => simp [entrySrcAt] at hs
  | call a b c d2 e2 f2 => simp [entrySrcAt] at hs
  | contract a b c d2 e2 f2 => simp [entrySrcAt] at hs
  | withdrawal a b c d2 e2 => simp [entrySrcAt] at hs

theorem checkValidSrc_mismatch (ctx : Ctx) (f : Nat) (eid : Hash) (sp : Nat) (st : VSt)
    (vsrc : ValueSource) (F : Entry) (st1 : VSt) (d : ValueDestination)
    (he : alookup ctx.tx.entries vsrc.ref = some F)
    (hcv : checkValid ctx f vsrc.ref st F = (st1, none))
    (hd : entryDestAt F vsrc.position = some d)
    (hviol : ¬(d.ref = eid ∧ d.position = sp ∧ d.value = vsrc.value)) :
    (checkValidSrc ctx (f + 1) eid sp st vsrc).2 = some .mismatchedReference ∨
    (checkValidSrc ctx (f + 1) eid sp st vsrc).2 = some .mismatchedPosition ∨
    (checkValidSrc ctx (f + 1) eid sp st vsrc).2 = some .mismatchedValue := by
  simp only [checkValidSrc_unfold]
  simp only [he, hcv]
  cases F with
  | coinbase a dw =>
    simp only [entryDestAt] at hd
    by_cases hp : vsrc.position = 0
    · rw [if_pos hp] at hd
      injection hd with hd
      subst hd
      simp only [hp, ne_eq, not_true_eq_false, if_false, ite_false]
      split_ifs with h1 h2 h3
      · exact absurd ⟨h1, h2, h3⟩ hviol
      all_goals simp
    · rw [if_neg hp] at hd; exact Option.noConfusion hd
  | issuance a b c args dw =>
    simp only [entryDestAt] at hd
    by_cases hp : vsrc.position = 0
    · rw [if_pos hp] at hd
      injection hd with hd
      subst hd
      simp only [hp, ne_eq, not_true_eq_false, if_false, ite_false]
      split_ifs with h1 h2 h3
      · exact absurd ⟨h1, h2, h3⟩ hviol
      all_goals simp
    · rw [if_neg hp] at hd; exact Option.noConfusion hd
  | spend a b dw =>
    simp only [entryDestAt] at hd
    by_cases hp : vsrc.position = 0
    · rw [if_pos hp] at hd
      injection hd with hd
      subst hd
      simp only [hp, ne_eq, not_true_eq_false, if_false, ite_false]
      split_ifs with h1 h2 h3
      · exact absurd ⟨h1, h2, h3⟩ hviol
      all_goals simp
    · rw [if_neg hp] at hd; exact Option.noConfusion hd
  | creation a b c args dw =>
    simp only [entryDestAt] at hd
    by_cases hp : vsrc.position = 0
    · rw [if_pos hp] at hd
      injection hd with hd
      subst hd
      simp only [hp, ne_eq, not_true_eq_false, if_false, ite_false]
      split_ifs with h1 h2 h3
      · exact absurd ⟨h1, h2, h3⟩ hviol
      all_goals simp
    · rw [if_neg hp] at hd; exact Option.noConfusion hd
  | call a b c c2 args dw =>
    simp only [entryDestAt] at hd
    by_cases hp : vsrc.position = 0
    · rw [if_pos hp] at hd
      injection hd with hd
      subst hd
      simp only [hp, ne_eq, not_true_eq_false, if_false, ite_false]
      split_ifs with h1 h2 h3
      · exact absurd ⟨h1, h2, h3⟩ hviol
      all_goals simp
    · rw [if_neg hp] at hd; exact Option.noConfusion hd
  | contract a b c c2 args dw =>
    simp only [entryDestAt] at hd
    by_cases hp : vsrc.position = 0
    · rw [if_pos hp] at hd
      injection hd with hd
      subst hd
      simp only [hp, ne_eq, not_true_eq_false, if_false, ite_false]
      split_ifs with h1 h2 h3
      · exact absurd ⟨h1, h2, h3⟩ hviol
      all_goals simp
    · rw [if_neg hp] at hd; exact Option.noConfusion hd
  | withdrawal a b c args dw =>
    simp only [entryDestAt] at hd
    by_cases hp : vsrc.position = 0
    · rw [if_pos hp] at hd
      injection hd with hd
      subst hd
      simp only [hp, ne_eq, not_true_eq_false, if_false, ite_false]
      split_ifs with h1 h2 h3
      · exact absurd ⟨h1, h2, h3⟩ hviol
      all_goals simp
    · rw [if_neg hp] at hd; exact Option.noConfusion hd
  | mux srcs prog dests =>
    simp only [entryDestAt] at hd
    simp only [hd]
    split_ifs with h1 h2 h3
    · simp
    · simp
    · simp
    · push_neg at h1 h2 h3
      exact absurd ⟨h1, h2, h3⟩ hviol
  | txHeader v r2 => simp [entryDestAt] at hd
  | output a b c => simp [entryDestAt] at hd
  | retirement a b => simp [entryDestAt] at hd
  | deposit a b => simp [entryDestAt] at hd

end Doslink

namespace Doslink

theorem checkMuxSrcs_ok_symmetric (ctx : Ctx) (srcs : List ValueSource) :
    ∀ f eid j st, (checkMuxSrcs ctx f eid j st srcs).2 = none →
      ∀ i vs, srcs.get? i = some vs → sourceSymmetric ctx.tx eid (j + i) vs := by
  induction srcs with
  | nil => intro f eid j st h i vs hg; simp at hg
  | cons s rest ih =>
    intro f eid j st h i vs hg
    cases f with
    | zero => rw [checkMuxSrcs_unfold] at h; simp at h
    | succ f =>
      rw [checkMuxSrcs_succ_cons] at h
      rcases hcs : checkValidSrc ctx f eid j st s with ⟨st1, r⟩
      rw [hcs] at h
      cases r with
      | some er => simp at h
      | none =>
        cases i with
        | zero =>
          simp only [List.get?_cons_zero] at hg
          injection hg with hg
          subst hg
          have hok : (checkValidSrc ctx f eid j st s).2 = none := by rw [hcs]
          simpa using checkValidSrc_ok_symmetric ctx f eid j st s hok
        | succ i =>
          have h2 : (checkMuxSrcs ctx f eid (j + 1) st1 rest).2 = none := by
            simpa using h
          have := ih f eid (j + 1) st1 h2 i vs (by simpa using hg)
          have harith : j + 1 + i = j + (i + 1) := by omega
          rwa [harith] at this

theorem checkMuxDests_ok_symmetric (ctx : Ctx) (dests : List ValueDestination) :
    ∀ f eid j st, (checkMuxDests ctx f eid j st dests).2 = none →
      ∀ i vd, dests.get? i = some vd → destSymmetric ctx.tx eid (j + i) vd := by
  induction dests with
  | nil => intro f eid j st h i vd hg; simp at hg
  | cons d rest ih =>
    intro f eid j st h i vd hg
    cases f with
    | zero => rw [checkMuxDests_unfold] at h; simp at h
    | succ f =>
      rw [checkMuxDests_succ_cons] at h
      rcases hcd : checkValidDest ctx eid j st d with ⟨st1, r⟩
      rw [hcd] at h
      cases r with
      | some er => simp at h
      | none =>
        cases i with
        | zero =>
          simp only [List.get?_cons_zero] at hg
          injection hg with hg
          subst hg
          have hok : (checkValidDest ctx eid j st d).2 = none := by rw [hcd]
          simpa using checkValidDest_ok_symmetric ctx eid j st d hok
        | succ i =>
          have h2 : (checkMuxDests ctx f eid (j + 1) st1 rest).2 = none := by
            simpa using h
          have := ih f eid (j + 1) st1 h2 i vd (by simpa using hg)
          have harith : j + 1 + i = j + (i + 1) := by omega
          rwa [harith] at this

end Doslink

namespace Doslink

/-- Success of one (cache-missing) `checkValidBody` run establishes
reference symmetry for every value source of the entry and for every
destination the validator checks. -/
theorem checkValidBody_ok_symmetric (ctx : Ctx) (f : Nat) (eid : Hash) (st : VSt)
    (e : Entry) (h : (checkValidBody ctx (f + 1) eid st e).2 = none) :
    (∀ i vs, (entrySources e).get? i = some vs → sourceSymmetric ctx.tx eid i vs) ∧
    (∀ i vd, (entryCheckedDests e).get? i = some vd → destSymmetric ctx.tx eid i vd) := by
  cases e with
  | txHeader v rids =>
    constructor <;> (intro i x hg; simp [entrySources, entryCheckedDests] at hg)
  | creation a b c args dw =>
    constructor <;> (intro i x hg; simp [entrySources, entryCheckedDests] at hg)
  | call a b c c2 args dw =>
    constructor <;> (intro i x hg; simp [entrySources, entryCheckedDests] at hg)
  | contract a b c c2 args dw =>
    constructor <;> (intro i x hg; simp [entrySources, entryCheckedDests] at hg)
  | mux sources prog dests =>
    simp only [checkValidBody_unfold] at h
    cases hps : muxParitySources [] sources with
    | error er => simp [hps] at h
    | ok p =>
      simp only [hps] at h
      cases hpd : muxParityDests p dests with
      | error er => simp [hpd] at h
      | ok p2 =>
        simp only [hpd] at h
        rcases hap : muxApplyParity st.gas (uint64ToInt64 ctx.tx.serializedSize) p2 with ⟨g1, r1⟩
        simp only [hap] at h
        cases r1 with
        | some er => simp at h
        | none =>
          rcases hgi : checkGasInputs ctx f { st with gas := g1 } ctx.tx.gasInputIDs with ⟨st2, r2⟩
          simp only [hgi] at h
          cases r2 with
          | some er => simp at h
          | none =>
            rcases hmd : checkMuxDests ctx f eid 0 st2 dests with ⟨st3, r3⟩
            simp only [hmd] at h
            cases r3 with
            | some er => simp at h
            | none =>
              have hdests : ∀ i vd, (entryCheckedDests (.mux sources prog dests)).get? i =
                  some vd → destSymmetric ctx.tx eid i vd := by
                intro i vd hg
                simp only [entryCheckedDests] at hg
                have hok : (checkMuxDests ctx f eid 0 st2 dests).2 = none := by rw [hmd]
                simpa using checkMuxDests_ok_symmetric ctx dests f eid 0 st2 hok i vd hg
              refine ⟨?_, hdests⟩
              intro i vs hg
              simp only [entrySources] at hg
              by_cases hgie : ctx.tx.gasInputIDs = []
              · simp only [hgie, ne_eq, not_true_eq_false, if_false, ite_false] at h
                have hok : (checkMuxSrcs ctx f eid 0 st3 sources).2 = none := by
                  simpa using h
                simpa using checkMuxSrcs_ok_symmetric ctx sources f eid 0 _ hok i vs hg
              · simp only [ne_eq, hgie, not_false_eq_true, if_true, ite_true] at h
                rcases hsv : st3.gas.setGasValid with ⟨g2, r5⟩
                simp only [hsv] at h
                cases r5 with
                | some er => simp at h
                | none =>
                  have hok : (checkMuxSrcs ctx f eid 0 { st3 with gas := g2 } sources).2 =
                      none := by
                    simpa using h
                  simpa using checkMuxSrcs_ok_symmetric ctx sources f eid 0 _ hok i vs hg
  | output src cp ord =>
    simp only [checkValidBody_unfold] at h
    rcases hcs : checkValidSrc ctx f eid 0 st src with ⟨st1, r⟩
    simp only [hcs] at h
    cases r with
    | some er => simp at h
    | none =>
      constructor
      · intro i vs hg
        cases i with
        | zero =>
          simp only [entrySources, List.get?_cons_zero] at hg
          injection hg with hg
          subst hg
          have hok : (checkValidSrc ctx f eid 0 st src).2 = none := by rw [hcs]
          exact checkValidSrc_ok_symmetric ctx f eid 0 st src hok
        | succ i => simp [entrySources] at hg
      · intro i vd hg; simp [entryCheckedDests] at hg
  | retirement src ord =>
    simp only [checkValidBody_unfold] at h
    rcases hcs : checkValidSrc ctx f eid 0 st src with ⟨st1, r⟩
    simp only [hcs] at h
    cases r with
    | some er => simp at h
    | none =>
      constructor
      · intro i vs hg
        cases i with
        | zero =>
          simp only [entrySources, List.get?_cons_zero] at hg
          injection hg with hg
          subst hg
          have hok : (checkValidSrc ctx f eid 0 st src).2 = none := by rw [hcs]
          exact checkValidSrc_ok_symmetric ctx f eid 0 st src hok
        | succ i => simp [entrySources] at hg
      · intro i vd hg; simp [entryCheckedDests] at hg
  | deposit src cp =>
    simp only [checkValidBody_unfold] at h
    rcases hcs : checkValidSrc ctx f eid 0 st src with ⟨st1, r⟩
    simp only [hcs] at h
    cases r with
    | some er => simp at h
    | none =>
      constructor
      · intro i vs hg
        cases i with
        | zero =>
          simp only [entrySources, List.get?_cons_zero] at hg
          injection hg with hg
          subst hg
          have hok : (checkValidSrc ctx f eid 0 st src).2 = none := by rw [hcs]
          exact checkValidSrc_ok_symmetric ctx f eid 0 st src hok
        | succ i => simp [entrySources] at hg
      · intro i vd hg; simp [entryCheckedDests] at hg
  | issuance value adef iprog args dw =>
    simp only [checkValidBody_unfold] at h
    by_cases hca : ctx.computeAssetID adef = value.assetId
    · simp only [hca, ne_eq, not_true_eq_false, if_false, ite_false] at h
      rcases hvm : ctx.vmVerify iprog args eid st.gas.gasLeft st.balances with ⟨bal1, gl, rv⟩
      simp only [hvm] at h
      cases rv with
      | some er => simp at h
      | none =>
        rcases huu : GasState.updateUsage st.gas gl with ⟨g1, ru⟩
        simp only [huu] at h
        cases ru with
        | some er => simp at h
        | none =>
          constructor
          · intro i vs hg; simp [entrySources] at hg
          · intro i vd hg
            cases i with
            | zero =>
              simp only [entryCheckedDests, List.get?_cons_zero] at hg
              injection hg with hg
              subst hg
              exact checkValidDest_ok_symmetric ctx eid 0 _ dw h
            | succ i => simp [entryCheckedDests] at hg
    · simp only [ne_eq, hca, not_false_eq_true, if_true, ite_true] at h
      simp at h
  | spend sid args dw =>
    cases sid with
    | none => simp [checkValidBody_unfold] at h
    | some soid =>
      simp only [checkValidBody_unfold] at h
      cases hso : alookup ctx.tx.entries soid with
      | none => simp [hso] at h
      | some oe =>
        simp only [hso] at h
        cases oe with
        | output osrc ocp oord =>
          rcases hvm : ctx.vmVerify ocp args eid st.gas.gasLeft st.balances with ⟨bal1, gl, rv⟩
          simp only [hvm] at h
          cases rv with
          | some er => simp at h
          | none =>
            rcases huu : GasState.updateUsage st.gas gl with ⟨g1, ru⟩
            simp only [huu] at h
            cases ru with
            | some er => simp at h
            | none =>
              by_cases hvv : osrc.value = dw.value
              · simp only [hvv, ne_eq, not_true_eq_false, if_false, ite_false] at h
                rcases hcd : checkValidDest ctx eid 0
                    { st with balances := bal1, gas := g1 } dw with ⟨st2, r2⟩
                simp only [hcd] at h
                cases r2 with
                | some er => simp at h
                | none =>
                  constructor
                  · intro i vs hg; simp [entrySources] at hg
                  · intro i vd hg
                    cases i with
                    | zero =>
                      simp only [entryCheckedDests, List.get?_cons_zero] at hg
                      injection hg with hg
                      subst hg
                      have hok : (checkValidDest ctx eid 0
                          { st with balances := bal1, gas := g1 } dw).2 = none := by rw [hcd]
                      exact checkValidDest_ok_symmetric ctx eid 0 _ dw hok
                    | succ i => simp [entryCheckedDests] at hg
              · simp only [ne_eq, hvv, not_false_eq_true, if_true, ite_true] at h
                simp at h
        | _ =>
          first
          | simp at h
  | coinbase arb dw =>
    simp only [checkValidBody_unfold] at h
    cases hb : ctx.block with
    | none => simp [hb] at h
    | some b =>
      simp only [hb] at h
      by_cases h1 : b.transactions.head? ≠ some ctx.tx.id
      · rw [if_pos h1] at h
        simp at h
      · rw [if_neg h1] at h
        by_cases h2 : dw.value.assetId ≠ NativeAssetID
        · rw [if_pos h2] at h
          simp at h
        · rw [if_neg h2] at h
          by_cases h3 : CoinbaseArbitrarySizeLimit < arb.length
          · rw [if_pos h3] at h
            simp at h
          · rw [if_neg h3] at h
            rcases hcd : checkValidDest ctx eid 0 st dw with ⟨st1, r⟩
            simp only [hcd] at h
            cases r with
            | some er => simp at h
            | none =>
              constructor
              · intro i vs hg; simp [entrySources] at hg
              · intro i vd hg
                cases i with
                | zero =>
                  simp only [entryCheckedDests, List.get?_cons_zero] at hg
                  injection hg with hg
                  subst hg
                  have hok : (checkValidDest ctx eid 0 st dw).2 = none := by rw [hcd]
                  exact checkValidDest_ok_symmetric ctx eid 0 st dw hok
                | succ i => simp [entryCheckedDests] at hg
  | withdrawal value cp wp args dw =>
    simp only [checkValidBody_unfold] at h
    rcases hvm : ctx.vmVerify cp args eid st.gas.gasLeft st.balances with ⟨bal1, gl, rv⟩
    simp only [hvm] at h
    cases rv with
    | some er => simp at h
    | none =>
      rcases huu : GasState.updateUsage st.gas gl with ⟨g1, ru⟩
      simp only [huu] at h
      cases ru with
      | some er => simp at h
      | none =>
        rcases hcd : checkValidDest ctx eid 0
            { st with balances := bal1, gas := g1 } dw with ⟨st2, r2⟩
        simp only [hcd] at h
        cases r2 with
        | some er => simp at h
        | none =>
          constructor
          · intro i vs hg; simp [entrySources] at hg
          · intro i vd hg
            cases i with
            | zero =>
              simp only [entryCheckedDests, List.get?_cons_zero] at hg
              injection hg with hg
              subst hg
              have hok : (checkValidDest ctx eid 0
                  { st with balances := bal1, gas := g1 } dw).2 = none := by rw [hcd]
              exact checkValidDest_ok_symmetric ctx eid 0 _ dw hok
            | succ i => simp [entryCheckedDests] at hg

end Doslink

namespace Doslink

/-- C2 (amended): whenever the validator actually validates an entry (a
cache-missing `checkValid` visit, whose work is `checkValidBody`),
success establishes reference symmetry for every value source the entry
holds and for every destination the validator checks (mux, issuance,
spend, coinbase and withdrawal destinations; creation/call/contract
destinations are never checked directly); `checkValidSrc` and
`checkValidDest` succeed only on symmetric references, and whenever the
referenced entry exists, recursively validates, and selects a
counterpart that disagrees in reference, position or value, they fail
with `ErrMismatchedReference`, `ErrMismatchedPosition` or
`ErrMismatchedValue`.  Entries not reachable from the header are never
visited, so the claim's quantification over all entries of an accepted
transaction is amended to the visited ones. -/
theorem checkValid_reference_symmetry (ctx : Ctx) :
    (∀ f eid st e, (checkValidBody ctx (f + 1) eid st e).2 = none →
      (∀ i vs, (entrySources e).get? i = some vs → sourceSymmetric ctx.tx eid i vs) ∧
      (∀ i vd, (entryCheckedDests e).get? i = some vd → destSymmetric ctx.tx eid i vd)) ∧
    (∀ f eid sp st vsrc, (checkValidSrc ctx f eid sp st vsrc).2 = none →
      sourceSymmetric ctx.tx eid sp vsrc) ∧
    (∀ eid dp st vd, (checkValidDest ctx eid dp st vd).2 = none →
      destSymmetric ctx.tx eid dp vd) ∧
    (∀ f eid sp st vsrc F st1 d,
      alookup ctx.tx.entries vsrc.ref = some F →
      checkValid ctx f vsrc.ref st F = (st1, none) →
      entryDestAt F vsrc.position = some d →
      ¬(d.ref = eid ∧ d.position = sp ∧ d.value = vsrc.value) →
      ((checkValidSrc ctx (f + 1) eid sp st vsrc).2 = some .mismatchedReference ∨
        (checkValidSrc ctx (f + 1) eid sp st vsrc).2 = some .mismatchedPosition ∨
        (checkValidSrc ctx (f + 1) eid sp st vsrc).2 = some .mismatchedValue)) ∧
    (∀ eid dp st vd F s,
      alookup ctx.tx.entries vd.ref = some F →
      entrySrcAt F vd.position = some s →
      ¬(s.ref = eid ∧ s.position = dp ∧ s.value = vd.value) →
      ((checkValidDest ctx eid dp st vd).2 = some .mismatchedReference ∨
        (checkValidDest ctx eid dp st vd).2 = some .mismatchedPosition ∨
        (checkValidDest ctx eid dp st vd).2 = some .mismatchedValue)) :=
  ⟨fun f eid st e h => checkValidBody_ok_symmetric ctx f eid st e h,
    fun f eid sp st vsrc h => checkValidSrc_ok_symmetric ctx f eid sp st vsrc h,
    fun eid dp st vd h => checkValidDest_ok_symmetric ctx eid dp st vd h,
    fun f eid sp st vsrc F st1 d he hcv hd hviol =>
      checkValidSrc_mismatch ctx f eid sp st vsrc F st1 d he hcv hd hviol,
    fun eid dp st vd F s he hs hviol =>
      checkValidDest_mismatch ctx eid dp st vd F s he hs hviol⟩

/-- C2 witness: the amended theorem applied to the concrete mux entry of
`txOrphan`, yielding symmetry of its only source. -/
theorem checkValid_reference_symmetry_witness :
    sourceSymmetric txOrphan 3 0 ⟨1, ⟨NativeAssetID, 5⟩, 0⟩ := by
  have h := (checkValid_reference_symmetry ctxOrphan).1 17 3 stInit muxEntry (by decide)
  exact h.1 0 ⟨1, ⟨NativeAssetID, 5⟩, 0⟩ (by decide)

/-- C2 counterexample: `ValidateTx` accepts `txOrphan` although its
entry map carries the never-visited output at id 9 whose value source
claims mux position 0 while the mux's destination there points to
entry 2 — so symmetry does not hold for every entry of an accepted
transaction. -/
theorem validateTx_accepts_asymmetric_orphan :
    (ValidateTx ctxOrphan 20 []).2 = none ∧
      alookup txOrphan.entries 9 = some orphanEntry ∧
      entrySources orphanEntry = [⟨3, ⟨NativeAssetID, 7⟩, 0⟩] ∧
      ¬sourceSymmetric txOrphan 9 0 ⟨3, ⟨NativeAssetID, 7⟩, 0⟩ := by
  refine ⟨by decide, by decide, by decide, ?_⟩
  rintro ⟨F, hF, d, hd, href, hpos, hval⟩
  have hF2 : some muxEntry = some F := by
    rw [← hF]
    rfl
  injection hF2 with hF2
  subst hF2
  have hd2 : some d = some (ValueDestination.mk 2 ⟨NativeAssetID, 5⟩ 0) :=
    hd.symm.trans rfl
  injection hd2 with hd2
  subst hd2
  exact absurd href (by decide)

end Doslink
